import Mathlib

/-!
# Verification of the djLint HTML formatter core

Shallow embedding of the formatter core of the djLint repository
(`src/djlint/formatter/indent.py`, `src/djlint/formatter/cssstyle.py`,
`src/djlint/formatter/attributes.py`, `src/djlint/reformat.py`,
`src/djlint/rules/H025.py`) together with proofs about the embedded
definitions.

Python strings are modelled as `List Char`; Python `dict`s (which preserve
insertion order) as association lists; fallible operations return
`Option`/`Except`.  Regular-expression operations used by the code are
modelled by concrete scanners for the concrete patterns appearing in the
sources; configuration-dependent patterns (which live in `settings.py`,
outside the given sources) are taken as function parameters.
-/

set_option autoImplicit false

namespace DjLint

/-! ## Python string primitives -/

/-- The characters Python `str.strip()` removes (ASCII whitespace model). -/
def isPySpace (c : Char) : Bool :=
  c = ' ' ∨ c = '\t' ∨ c = '\n' ∨ c = '\r' ∨ c = '\x0b' ∨ c = '\x0c'

/-- Model of Python `str.lstrip()`. -/
def pyLStrip (s : List Char) : List Char := s.dropWhile isPySpace

/-- Model of Python `str.rstrip()`. -/
def pyRStrip (s : List Char) : List Char := (s.reverse.dropWhile isPySpace).reverse

/-- Model of Python `str.strip()`. -/
def pyStrip (s : List Char) : List Char := pyRStrip (pyLStrip s)

/-- Model of Python `str.strip(ch)` for a single character argument. -/
def pyStripChar (ch : Char) (s : List Char) : List Char :=
  ((s.dropWhile (· = ch)).reverse.dropWhile (· = ch)).reverse

/-- Model of Python `re.split("\n", s)` / `"s".split("\n")`: every newline
separates fields, and the empty string yields one empty field. -/
def pySplitNL (s : List Char) : List (List Char) :=
  match s with
  | [] => [[]]
  | c :: cs =>
    match pySplitNL cs with
    | [] => if c = '\n' then [[], []] else [[c]]
    | f :: fs => if c = '\n' then [] :: f :: fs else (c :: f) :: fs

/-- Model of Python `str.splitlines()` (newline-only model): a trailing
newline produces no trailing empty field, and `"".splitlines() = []`. -/
def pySplitlines (s : List Char) : List (List Char) :=
  match s with
  | [] => []
  | c :: cs =>
    match pySplitlines cs with
    | [] => if c = '\n' then [[]] else [[c]]
    | f :: fs => if c = '\n' then [] :: f :: fs else (c :: f) :: fs

/-- Model of Python `sep.join(fields)`. -/
def pyJoin (sep : List Char) : List (List Char) → List Char
  | [] => []
  | [f] => f
  | f :: fs => f ++ sep ++ pyJoin sep fs

/-- Model of Python `s * n` for strings where `n` may be a negative `int`
(negative or zero repetition yields the empty string). -/
def pyRepeat (s : List Char) (n : Int) : List Char :=
  match n with
  | .negSucc _ => []
  | .ofNat m => (List.replicate m s).flatten

/-- Model of Python `str.split(sep)` for a non-empty separator:
leftmost non-overlapping occurrences of `sep` delimit the fields. -/
def pySplitSep (sep : List Char) (fuel : Nat) (acc : List Char) (s : List Char) :
    List (List Char) :=
  match fuel with
  | 0 => [acc.reverse ++ s]
  | fuel + 1 =>
    match s with
    | [] => [acc.reverse]
    | c :: cs =>
      if sep ≠ [] ∧ sep.isPrefixOf (c :: cs) then
        acc.reverse :: pySplitSep sep fuel [] ((c :: cs).drop sep.length)
      else
        pySplitSep sep fuel (c :: acc) cs

/-- Model of Python `s.split(sep)` (non-empty `sep`). -/
def pySplit (sep s : List Char) : List (List Char) :=
  pySplitSep sep (s.length + 1) [] s

/-- Helper for `pySplitWS`: `cur` is the reversed word being accumulated. -/
def pySplitWSAux (cur : List Char) : List Char → List (List Char)
  | [] => if cur = [] then [] else [cur.reverse]
  | c :: cs =>
    if isPySpace c then
      if cur = [] then pySplitWSAux [] cs else cur.reverse :: pySplitWSAux [] cs
    else
      pySplitWSAux (c :: cur) cs

/-- Model of Python `str.split()` with no argument: split on whitespace
runs, discarding empty fields. -/
def pySplitWS (s : List Char) : List (List Char) :=
  pySplitWSAux [] s

/-! ## Decimal rendering of naturals (model of Python `str(int)` /
f-string interpolation of an `int`) -/

/-- One decimal digit as a character. -/
def digitChar : Nat → Char
  | 0 => '0' | 1 => '1' | 2 => '2' | 3 => '3' | 4 => '4'
  | 5 => '5' | 6 => '6' | 7 => '7' | 8 => '8' | _ => '9'

/-- Inverse of `digitChar` on decimal digits. -/
def digitVal (c : Char) : Nat :=
  match c with
  | '0' => 0 | '1' => 1 | '2' => 2 | '3' => 3 | '4' => 4
  | '5' => 5 | '6' => 6 | '7' => 7 | '8' => 8 | _ => 9

/-- Decimal digits of `n`, least significant first (`fuel`-bounded, with
`n ≤ fuel` sufficient). -/
def digitsRev (fuel n : Nat) : List Nat :=
  match fuel with
  | 0 => [n]
  | fuel + 1 => if n < 10 then [n] else n % 10 :: digitsRev fuel (n / 10)

/-- Model of Python `str(n)` for a natural number. -/
def pyIntRepr (n : Nat) : List Char :=
  ((digitsRev n n).map digitChar).reverse

/-- Numeric value of a least-significant-first digit list. -/
def undigits : List Nat → Nat
  | [] => 0
  | d :: ds => d + 10 * undigits ds

theorem digitVal_digitChar {d : Nat} (h : d < 10) : digitVal (digitChar d) = d := by
  interval_cases d <;> rfl

theorem digitsRev_lt (fuel n : Nat) (h : n ≤ fuel ∨ n < 10) :
    ∀ d ∈ digitsRev fuel n, d < 10 := by
  induction fuel generalizing n with
  | zero =>
    intro d hd
    simp only [digitsRev, List.mem_singleton] at hd
    subst hd
    omega
  | succ fuel ih =>
    intro d hd
    simp only [digitsRev] at hd
    split at hd
    · simp only [List.mem_singleton] at hd; omega
    · rcases List.mem_cons.mp hd with h1 | h2
      · subst h1; exact Nat.mod_lt _ (by omega)
      · exact ih (n / 10) (Or.inl (by omega)) d h2

theorem undigits_digitsRev (fuel n : Nat) (h : n ≤ fuel ∨ n < 10) :
    undigits (digitsRev fuel n) = n := by
  induction fuel generalizing n with
  | zero =>
    simp [digitsRev, undigits]
  | succ fuel ih =>
    simp only [digitsRev]
    split
    · simp [undigits]
    · rw [undigits, ih (n / 10) (Or.inl (by omega))]
      omega

theorem map_digitChar_inj {l₁ l₂ : List Nat}
    (h₁ : ∀ d ∈ l₁, d < 10) (h₂ : ∀ d ∈ l₂, d < 10)
    (h : l₁.map digitChar = l₂.map digitChar) : l₁ = l₂ := by
  induction l₁ generalizing l₂ with
  | nil => cases l₂ <;> simp_all
  | cons a l ih =>
    cases l₂ with
    | nil => simp_all
    | cons b m =>
      simp only [List.map_cons, List.cons.injEq] at h
      have ha : a < 10 := h₁ a (by simp)
      have hb : b < 10 := h₂ b (by simp)
      have : a = b := by
        have := congrArg digitVal h.1
        rwa [digitVal_digitChar ha, digitVal_digitChar hb] at this
      exact this ▸ congrArg (a :: ·)
        (ih (fun d hd => h₁ d (by simp [hd])) (fun d hd => h₂ d (by simp [hd])) h.2)

/-- Python's decimal rendering of a natural number is injective. -/
theorem pyIntRepr_inj : Function.Injective pyIntRepr := by
  intro a b h
  unfold pyIntRepr at h
  have h' := congrArg List.reverse h
  simp only [List.reverse_reverse] at h'
  have := map_digitChar_inj (digitsRev_lt a a (Or.inl (Nat.le_refl _)))
    (digitsRev_lt b b (Or.inl (Nat.le_refl _))) h'
  have ha := undigits_digitsRev a a (Or.inl (Nat.le_refl _))
  have hb := undigits_digitsRev b b (Or.inl (Nat.le_refl _))
  rw [this] at ha
  omega

/-- Every character of `pyIntRepr n` is a decimal digit character. -/
theorem pyIntRepr_chars (n : Nat) :
    ∀ c ∈ pyIntRepr n, c ∈ "0123456789".data := by
  intro c hc
  unfold pyIntRepr at hc
  rw [List.mem_reverse, List.mem_map] at hc
  obtain ⟨d, _, rfl⟩ := hc
  match d with
  | 0 | 1 | 2 | 3 | 4 | 5 | 6 | 7 | 8 => simp [digitChar]
  | d + 9 => simp [digitChar]

/-! ## Fingerprint model -/

/-- One hexadecimal digit as a character. -/
def hexChar : Nat → Char
  | 0 => '0' | 1 => '1' | 2 => '2' | 3 => '3' | 4 => '4'
  | 5 => '5' | 6 => '6' | 7 => '7' | 8 => '8' | 9 => '9'
  | 10 => 'a' | 11 => 'b' | 12 => 'c' | 13 => 'd' | 14 => 'e' | _ => 'f'

/-- Model of `hashlib.shake_256(x.encode()).hexdigest(5)` (an external
library function): a deterministic fingerprint of the input consisting of
exactly ten hexadecimal characters.  The concrete mixing function used here
is a stand-in; all theorems below depend only on determinism and on the
shape of the output (ten hex characters), both of which hold of the real
`hexdigest(5)`. -/
def shake256Hex5 (s : List Char) : List Char :=
  let h := s.foldl (fun a c => (a * 31 + c.toNat) % (2 ^ 40)) 5381
  (List.range 10).map (fun i => hexChar (h / 16 ^ (9 - i) % 16))

theorem shake256Hex5_length (s : List Char) : (shake256Hex5 s).length = 10 := by
  simp [shake256Hex5]

theorem hexChar_mem (n : Nat) :
    hexChar n ∈ "0123456789abcdef".data := by
  match n with
  | 0 | 1 | 2 | 3 | 4 | 5 | 6 | 7 | 8 | 9 | 10 | 11 | 12 | 13 | 14 => simp [hexChar]
  | n + 15 => simp [hexChar]

theorem shake256Hex5_chars (s : List Char) :
    ∀ c ∈ shake256Hex5 s, c ∈ "0123456789abcdef".data := by
  intro c hc
  simp only [shake256Hex5, List.mem_map] at hc
  obtain ⟨i, _, rfl⟩ := hc
  exact hexChar_mem _

/-! ## Scanner for the quoted-attribute regexes

`cssstyle.py` uses the two concrete patterns `style="([^"]*)"` and
`class="([^"]*)"` with `re.findall` and `re.sub`.  Both patterns are a
fixed border-free literal (`style="` resp. `class="`) followed by a
greedy run of non-quote characters and a closing quote, so their
leftmost non-overlapping match semantics is realised exactly by the
following single-pass scanner. -/

/-- Scanner state: outside a match with `k` pattern characters already
matched, or inside the `([^"]*)` capture. -/
inductive QState where
  | outside (k : Nat)
  | capture (acc : List Char)
deriving DecidableEq

/-- Characters emitted for a partially consumed match when the input ends. -/
def qflush (pat : List Char) : QState → List Char
  | .outside k => pat.take k
  | .capture acc => pat ++ acc.reverse

/-- One scanner step: new state, characters emitted to the substituted
output, and a completed capture if the step closed a match. -/
def qstep (pat repl : List Char) (st : QState) (c : Char) :
    QState × List Char × Option (List Char) :=
  match st with
  | .outside k =>
    if pat.get? k = some c then
      if k + 1 = pat.length then (.capture [], [], none)
      else (.outside (k + 1), [], none)
    else if pat.head? = some c then (.outside 1, pat.take k, none)
    else (.outside 0, pat.take k ++ [c], none)
  | .capture acc =>
    if c = '"' then (.outside 0, repl, some acc.reverse)
    else (.capture (c :: acc), [], none)

/-- Run the scanner: returns the list of captures (`re.findall`) and the
substituted text (`re.sub` with replacement `repl`). -/
def qrun (pat repl : List Char) (st : QState) : List Char → List (List Char) × List Char
  | [] => ([], qflush pat st)
  | c :: cs =>
    let step := qstep pat repl st c
    let rest := qrun pat repl step.1 cs
    match step.2.2 with
    | none => (rest.1, step.2.1 ++ rest.2)
    | some x => (x :: rest.1, step.2.1 ++ rest.2)

/-- Run the scanner WITHOUT the end-of-input flush: final state, captures,
and emitted text.  `qrun` is `qpass` followed by `qflush` on the final
state; stating the pass this way makes the scan compositional over
concatenation. -/
def qpass (pat repl : List Char) (st : QState) : List Char → QState × List (List Char) × List Char
  | [] => (st, [], [])
  | c :: cs =>
    let step := qstep pat repl st c
    let rest := qpass pat repl step.1 cs
    match step.2.2 with
    | none => (rest.1, rest.2.1, step.2.1 ++ rest.2.2)
    | some x => (rest.1, x :: rest.2.1, step.2.1 ++ rest.2.2)

/-- Model of `re.findall(pat, s)` for the quoted-attribute patterns:
the list of `([^"]*)` captures. -/
def reFindQuoted (pat s : List Char) : List (List Char) :=
  (qrun pat [] (.outside 0) s).1

/-- Model of `re.sub(pat, repl, s)` for the quoted-attribute patterns. -/
def reSubQuoted (pat repl s : List Char) : List Char :=
  (qrun pat repl (.outside 0) s).2

/-- The literal part of `style="([^"]*)"`. -/
def stylePat : List Char := ['s','t','y','l','e','=','"']

/-- The literal part of `class="([^"]*)"`. -/
def classPat : List Char := ['c','l','a','s','s','=','"']

/-- Python `\w` (ASCII model). -/
def isWordChar (c : Char) : Bool := c.isAlphanum ∨ c = '_'

/-- Model of `re.sub(r"(<\w+)", r"\1 " + ncs, html, 1)` from
`add_or_update_class`: insert `ncs` after the first `<`‑plus‑word‑run. -/
def subFirstTagOpen (ncs : List Char) : List Char → List Char
  | [] => []
  | c :: cs =>
    if c = '<' then
      match cs with
      | [] => ['<']
      | d :: ds =>
        if isWordChar d then
          '<' :: (d :: ds).takeWhile isWordChar ++ ' ' :: ncs
            ++ (d :: ds).dropWhile isWordChar
        else '<' :: subFirstTagOpen ncs cs
    else c :: subFirstTagOpen ncs cs

/-! ## `cssstyle.py` -/

/-- The mutable part of the run `Config` used by `cssstyle.py`:
`config.css_rules` (an insertion-ordered dict mapping generated class name
to style text), `config.counter`, and the contents of the CSS output file
at `config.css_file_path` (file I/O is modelled by this field). -/
structure CssConfig where
  css_rules : List (List Char × List Char)
  counter : Nat
  cssFile : List Char
deriving DecidableEq

/-- `next((cls for cls, styles in config.css_rules.items() if styles ==
inline_styles), None)`. -/
def lookupByStyle (rules : List (List Char × List Char)) (style : List Char) :
    Option (List Char) :=
  (rules.find? (fun p => p.2 == style)).map (·.1)

/-- `f"class-{rnd}-{config.counter}"`. -/
def mkClassName (rnd : List Char) (counter : Nat) : List Char :=
  ['c','l','a','s','s','-'] ++ rnd ++ '-' :: pyIntRepr counter

/-- `add_css_classes` (cssstyle.py, lines 13–38).  `hash` abstracts
`hashlib.shake_256(str(this_file).encode()).hexdigest(5)`; the default
instantiation used in concrete statements is `shake256Hex5`.  Returns the
updated config and the updated `css_classes` list (the source appends to
the passed-in list and returns it). -/
def add_css_classes (hash : List Char → List Char) (cfg : CssConfig)
    (css_classes : List (List Char)) (inline_styles this_file : List Char) :
    CssConfig × List (List Char) :=
  let looked := (lookupByStyle cfg.css_rules inline_styles).getD []
  if looked = [] then
    let rnd := hash this_file
    let class_name := mkClassName rnd cfg.counter
    ({ cfg with
        css_rules := cfg.css_rules ++ [(class_name, inline_styles)]
        counter := cfg.counter + 1 },
      css_classes ++ [class_name])
  else
    ({ cfg with counter := cfg.counter + 1 }, css_classes ++ [looked])

/-- The quote-stripping at the head of the loop of
`clean_inline_style_to_css_class` (lines 60–65). -/
def stripQuotesPy (m : List Char) : List Char :=
  if m.contains '\'' then pyStripChar '\'' m
  else if m.contains '"' then pyStripChar '"' m
  else m

/-- Model of Python `list(set(xs))`: the distinct elements of `xs`.  The
iteration order of a Python `set` is implementation-defined; this model
fixes first-occurrence order.  No theorem below depends on the order. -/
def pySetList : List (List Char) → List (List Char)
  | [] => []
  | x :: xs => if (pySetList xs).contains x then pySetList xs
               else x :: pySetList xs

/-- `'class="' + " ".join(list(set(css_classes))) + '"'`. -/
def mkNewClassStr (css_classes : List (List Char)) : List Char :=
  ['c','l','a','s','s','=','"'] ++ pyJoin [' '] (pySetList css_classes) ++ ['"']

/-- `add_or_update_class` (cssstyle.py, lines 83–101). -/
def add_or_update_class (html new_class_str : List Char) : List Char :=
  if reFindQuoted classPat html ≠ [] then
    reSubQuoted classPat new_class_str html
  else
    subFirstTagOpen new_class_str html

/-- The rendering loop of `create_css_file` (lines 104–114): append
`f".{class_name} {{{styles}}}\n"` for every table entry. -/
def renderRules (rules : List (List Char × List Char)) : List Char :=
  (rules.map (fun p => '.' :: p.1 ++ ' ' :: '\x7b' :: p.2 ++ ['\x7d', '\n'])).flatten

/-- `create_css_file` (append mode `a+`): the run's whole rule table is
appended to the CSS output file on every call. -/
def create_css_file (cfg : CssConfig) : CssConfig :=
  { cfg with cssFile := cfg.cssFile ++ renderRules cfg.css_rules }

/-- Selector characters of the block pattern `\.([\w-]+...`. -/
def isSelChar (c : Char) : Bool := isWordChar c ∨ c = '-'

/-- One attempted match of `(\.[\w-]+\s*\{[^\}]*\})` at the head of the
input; returns the matched block and the rest.  All quantifiers in the
pattern are greedy over pairwise disjoint character classes, so matching
is backtracking-free. -/
def cssBlockAt? (s : List Char) : Option (List Char × List Char) :=
  match s with
  | '.' :: cs =>
    let w := cs.takeWhile isSelChar
    if w = [] then none
    else
      let r1 := cs.dropWhile isSelChar
      let sp := r1.takeWhile isPySpace
      match r1.dropWhile isPySpace with
      | '\x7b' :: r3 =>
        let body := r3.takeWhile (· ≠ '\x7d')
        match r3.dropWhile (· ≠ '\x7d') with
        | '\x7d' :: r5 =>
          some ('.' :: w ++ sp ++ '\x7b' :: body ++ ['\x7d'], r5)
        | _ => none
      | _ => none
  | _ => none

/-- `re.findall` of the block pattern: leftmost non-overlapping matches. -/
def cssBlocks (fuel : Nat) (s : List Char) : List (List Char) :=
  match fuel, s with
  | 0, _ => []
  | _, [] => []
  | fuel + 1, c :: cs =>
    match cssBlockAt? (c :: cs) with
    | some (b, rest) => b :: cssBlocks fuel rest
    | none => cssBlocks fuel cs

/-- `class_def.split("{")[0].strip()`. -/
def selectorOf (block : List Char) : List Char :=
  pyStrip ((pySplit ['\x7b'] block).headD [])

/-- The `unique_classes` dict fill of `remove_duplicate_classes`: keep the
first block per distinct selector, in first-occurrence order. -/
def dedupBlocksAux (seen : List (List Char)) : List (List Char) → List (List Char)
  | [] => []
  | b :: bs =>
    if seen.contains (selectorOf b) then dedupBlocksAux seen bs
    else b :: dedupBlocksAux (seen ++ [selectorOf b]) bs

def dedupBlocks (bs : List (List Char)) : List (List Char) :=
  dedupBlocksAux [] bs

/-- `remove_duplicate_classes` (cssstyle.py, lines 117–141), as a function
from the CSS file's contents to its rewritten contents. -/
def remove_duplicate_classes (content : List Char) : List Char :=
  ((dedupBlocks (cssBlocks (content.length + 1) content)).map (· ++ ['\n'])).flatten

/-- One iteration of the `for match in matches` loop of
`clean_inline_style_to_css_class` (lines 59–72).  The state holds the
config, the contents of the `flattened_class_list` object (which the
callee appends to whenever it is passed, i.e. whenever it is non-empty:
`flattened_class_list or []`), and the current value of the
`css_classes` variable (the callee's return). -/
def cleanLoopStep (hash : List Char → List Char) (this_file : List Char)
    (st : CssConfig × List (List Char) × List (List Char)) (m : List Char) :
    CssConfig × List (List Char) × List (List Char) :=
  let attrib_value := stripQuotesPy m
  let base := if st.2.1 = [] then [] else st.2.1
  let res := add_css_classes hash st.1 base attrib_value this_file
  let flObj := if st.2.1 = [] then [] else res.2
  ({ res.1 with counter := res.1.counter + 1 }, flObj, res.2)

/-- `clean_inline_style_to_css_class` (cssstyle.py, lines 41–80). -/
def clean_inline_style_to_css_class (hash : List Char → List Char)
    (cfg : CssConfig) (html this_file : List Char) : CssConfig × List Char :=
  let mstyles := reFindQuoted stylePat html
  let flattened := ((reFindQuoted classPat html).map pySplitWS).flatten
  let looped := mstyles.foldl (cleanLoopStep hash this_file) (cfg, flattened, [])
  let css_classes := looped.2.2
  let html1 := reSubQuoted stylePat [] html
  let html2 :=
    if css_classes ≠ [] then
      add_or_update_class html1 (mkNewClassStr css_classes)
    else html1
  let cfg1 := create_css_file looped.1
  let cfg2 := { cfg1 with cssFile := remove_duplicate_classes cfg1.cssFile }
  (cfg2, html2)

/-! ## `indent.py`: the indentation state machine

The per-line branch cascade of `process_indentation` (indent.py, lines
562–755).  The configuration-dependent regular expressions (they are built
from pattern sets in `settings.py`, and the raw/script-block helpers live
in `helpers.py`; neither file is part of the given sources) are taken as
boolean predicates on the line; the branch structure, the state updates
and the emitted text are modelled concretely from the source. -/

/-- The feature flags of `Config` consumed by `process_indentation`. -/
structure IndentFlags where
  no_set_formatting : Bool
  no_function_formatting : Bool
  preserve_leading_space : Bool
  preserve_blank_lines : Bool

/-- The configuration-dependent line predicates used by the cascade, plus
the attribute substitution of `apply_indentation_substitution` (whose
pattern depends on `config.indent_html_tags`). -/
structure Classifiers where
  /-- `re.findall(rf"^\s*?(?:{config.ignored_inline_blocks})", item)` non-empty. -/
  ignoredInlineBlock : List Char → Bool
  /-- the compiled regex of `should_indent` / `compile_html_regex` matches. -/
  sltMatch : List Char → Bool
  /-- the regex of `check_formatting_conditions` (a line with `%}` and no `{%`). -/
  fmtClose : List Char → Bool
  /-- the regex of `check_closing_conditions` (`^[ ]*}|^[ ]*]`). -/
  bracketClose : List Char → Bool
  /-- `re.search(config.tag_unindent, item)` matches. -/
  tagUnindent : List Char → Bool
  /-- `slt_pattern_1` of `check_item_conditions` (un-anchored) matches. -/
  sltUnanchored1 : List Char → Bool
  /-- `slt_pattern_2` of `check_item_conditions` (un-anchored) matches. -/
  sltUnanchored2 : List Char → Bool
  /-- `check_html_tags` (the `^`-anchored slt patterns) matches. -/
  sltAnchored : List Char → Bool
  /-- the regex of `check_unindent_condition` (`^` + `config.tag_unindent_line`). -/
  tagUnindentLine : List Char → Bool
  /-- the regex of `check_set_formatting_condition` (an unclosed `{% set`). -/
  setOpen : List Char → Bool
  /-- the regex of `check_complex_condition` (a trailing unclosed `{`/`[`). -/
  bracketOpen : List Char → Bool
  /-- the regex of `check_indent_condition` (`^(?:` + `config.tag_indent` + `)`). -/
  tagIndent : List Char → Bool
  /-- `is_ignored_block_opening` (helpers.py, outside the given sources). -/
  ignoredOpening : List Char → Bool
  /-- `is_ignored_block_closing` (helpers.py, outside the given sources). -/
  ignoredClosing : List Char → Bool
  /-- `is_safe_closing_tag` (helpers.py, outside the given sources). -/
  safeClosing : List Char → Bool
  /-- `is_script_style_block_opening` (helpers.py, outside the given sources). -/
  scriptStyleOpening : List Char → Bool
  /-- `is_script_style_block_closing` (helpers.py, outside the given sources). -/
  scriptStyleClosing : List Char → Bool
  /-- `apply_indentation_substitution` with `format_attributes` (indent.py,
  lines 382–398 and 717–718); its pattern depends on
  `config.indent_html_tags`. -/
  attrSub : List Char → List Char

/-- The local mutable state of `process_indentation`.  The two counters are
modelled as integers so that non-negativity is a statement, not a typing
artefact. -/
structure IState where
  indent_level : Int
  in_set_tag : Bool
  is_raw_first_line : Bool
  in_script_style_tag : Bool
  is_block_raw : Bool
  ignored_level : Int
deriving DecidableEq

/-- The initial state (indent.py, lines 575–591). -/
def initIState : IState :=
  { indent_level := 0, in_set_tag := false, is_raw_first_line := false,
    in_script_style_tag := false, is_block_raw := false, ignored_level := 0 }

/-- The raw-tracking updates at the top of the loop body (lines 594–610). -/
def preUpdate (cls : Classifiers) (st : IState) (item : List Char) : IState :=
  let st := if ¬ st.is_block_raw ∧ cls.ignoredOpening item then
      { st with is_raw_first_line := true } else st
  let st := if cls.ignoredOpening item then
      { st with is_block_raw := true, ignored_level := st.ignored_level + 1 } else st
  let st := if cls.scriptStyleOpening item then
      { st with in_script_style_tag := true } else st
  if cls.safeClosing item then
    let lvl := max (st.ignored_level - 1) 0
    let st := { st with ignored_level := lvl }
    if st.is_block_raw ∧ lvl = 0 then { st with is_block_raw := false } else st
  else st

/-- The line categories of the ordered branch cascade (lines 612–706),
one constructor per `if`/`elif`/`else` arm in source order (the unindent
arm is split into its two sub-cases at lines 659–665). -/
inductive LineClass where
  | ignoredInline
  | sltLine
  | setClose
  | braceClose
  | emitThenUnindent
  | unindentThenEmit
  | unindentLineOnly
  | setOpenB
  | braceOpen
  | indentB
  | rawFirstOrSafe
  | rawOrBlank
  | defaultIndent
  | defaultKeep
deriving DecidableEq

/-- The ordered branch cascade (lines 612–706) as a classification:
the conditions are evaluated in source order, first match wins. -/
def classifyLine (flags : IndentFlags) (cls : Classifiers) (st : IState)
    (item : List Char) : LineClass :=
  if cls.ignoredInlineBlock item ∧ st.is_block_raw = false then .ignoredInline
  else if cls.sltMatch item ∧ ¬ st.is_block_raw then .sltLine
  else if flags.no_set_formatting = false ∧ cls.fmtClose item
      ∧ st.is_block_raw = false ∧ st.in_set_tag = true then .setClose
  else if ¬ flags.no_set_formatting ∧ cls.bracketClose item
      ∧ ¬ st.is_block_raw ∧ st.in_set_tag then .braceClose
  else if cls.tagUnindent item ∧ ¬ st.is_block_raw ∧ ¬ cls.safeClosing item
      ∧ ¬ cls.sltUnanchored1 item ∧ ¬ cls.sltUnanchored2 item then
    if cls.sltAnchored item then .emitThenUnindent else .unindentThenEmit
  else if cls.tagUnindentLine item ∧ ¬ st.is_block_raw then .unindentLineOnly
  else if ¬ flags.no_set_formatting ∧ cls.setOpen item
      ∧ ¬ st.is_block_raw ∧ ¬ st.in_set_tag then .setOpenB
  else if ¬ flags.no_set_formatting ∧ cls.bracketOpen item
      ∧ ¬ st.is_block_raw ∧ st.in_set_tag then .braceOpen
  else if cls.tagIndent item ∧ ¬ st.is_block_raw then .indentB
  else if st.is_raw_first_line = true
      ∨ (cls.safeClosing item ∧ st.is_block_raw = false) then .rawFirstOrSafe
  else if st.is_block_raw = true ∨ pyStrip item = [] then .rawOrBlank
  else if ¬ flags.preserve_leading_space then .defaultIndent
  else .defaultKeep

/-- The ordered branch cascade (lines 612–706): classify the line, update
the state and produce the emitted text `tmp`.  The state update and the
emitted text of each arm are transcribed from the corresponding arm of the
source. -/
def branchEmit (flags : IndentFlags) (cls : Classifiers) (indent : List Char)
    (st : IState) (item : List Char) : IState × List Char :=
  let lvl := st.indent_level
  match classifyLine flags cls st item with
  | .ignoredInline => (st, pyRepeat indent lvl ++ item ++ ['\n'])
  | .sltLine => (st, pyRepeat indent lvl ++ item ++ ['\n'])
  | .setClose =>
    let lvl2 := max (lvl - 1) 0
    ({ st with indent_level := lvl2, in_set_tag := false },
      pyRepeat indent lvl2 ++ item ++ ['\n'])
  | .braceClose =>
    let lvl2 := max (lvl - 1) 0
    ({ st with indent_level := lvl2 }, pyRepeat indent lvl2 ++ item ++ ['\n'])
  | .emitThenUnindent =>
    ({ st with indent_level := max (lvl - 1) 0 },
      pyRepeat indent lvl ++ item ++ ['\n'])
  | .unindentThenEmit =>
    let lvl2 := max (lvl - 1) 0
    ({ st with indent_level := lvl2 }, pyRepeat indent lvl2 ++ item ++ ['\n'])
  | .unindentLineOnly => (st, pyRepeat indent (lvl - 1) ++ item ++ ['\n'])
  | .setOpenB =>
    ({ st with indent_level := lvl + 1, in_set_tag := true },
      pyRepeat indent lvl ++ item ++ ['\n'])
  | .braceOpen =>
    ({ st with indent_level := lvl + 1 }, pyRepeat indent lvl ++ item ++ ['\n'])
  | .indentB =>
    ({ st with indent_level := lvl + 1 }, pyRepeat indent lvl ++ item ++ ['\n'])
  | .rawFirstOrSafe => (st, pyRepeat indent lvl ++ item ++ ['\n'])
  | .rawOrBlank => (st, item ++ ['\n'])
  | .defaultIndent => (st, pyRepeat indent lvl ++ item ++ ['\n'])
  | .defaultKeep => (st, item ++ ['\n'])

/-- The attribute-expansion step after the cascade (lines 708–718): a raw
opening line turns raw mode on and clears the first-line flag; otherwise,
when not in a raw block, the emitted text goes through
`apply_indentation_substitution` / `format_attributes`. -/
def postAttr (cls : Classifiers) (st : IState) (item tmp : List Char) :
    IState × List Char :=
  if cls.ignoredOpening item then
    ({ st with is_block_raw := true, is_raw_first_line := false }, tmp)
  else if st.is_block_raw = false then (st, cls.attrSub tmp)
  else (st, tmp)

/-- The raw-closing update at the bottom of the loop body (lines 722–735). -/
def postClose (cls : Classifiers) (st : IState) (item : List Char) : IState :=
  if cls.ignoredClosing item ∧ (st.in_script_style_tag = false
      ∨ (st.in_script_style_tag ∧ cls.scriptStyleClosing item)) then
    let st := { st with in_script_style_tag := false }
    let st := if ¬ cls.safeClosing item then
        { st with ignored_level := max (st.ignored_level - 1) 0 } else st
    if st.ignored_level = 0 then { st with is_block_raw := false } else st
  else st

/-- The `IState` evolution of one loop iteration (the style call at line
720 does not touch this state). -/
def indentStateStep (flags : IndentFlags) (cls : Classifiers)
    (indent : List Char) (st : IState) (item : List Char) : IState :=
  let st1 := preUpdate cls st item
  let p := branchEmit flags cls indent st1 item
  let q := postAttr cls p.1 item p.2
  postClose cls q.1 item

/-! ### The literal call at indent.py line 720

`clean_inline_style_to_css_class` is defined (cssstyle.py, line 41) with
the parameters `config`, `html`, `this_file`, none of which has a default;
the call in the loop reads
`clean_inline_style_to_css_class(config=config, html=tmp)`.  Python's
argument binding is modelled by `pyCallBinds`. -/

/-- Python call binding for a function whose parameters all lack defaults:
the call binds iff at most `params.length` positional arguments are given,
every keyword names a parameter not bound positionally, and every
remaining parameter is bound by a keyword. -/
def pyCallBinds (params : List String) (npos : Nat) (kwargs : List String) : Bool :=
  decide (npos ≤ params.length)
    && kwargs.all (fun k => (params.drop npos).contains k)
    && (params.drop npos).all (fun p => kwargs.contains p)

/-- The parameters of `clean_inline_style_to_css_class` (cssstyle.py, line 41). -/
def cleanInlineParams : List String := ["config", "html", "this_file"]

/-- The keyword arguments of the call at indent.py line 720. -/
def cleanInlineCallKwargs : List String := ["config", "html"]

/-- The parameters of `indent_html` (indent.py, line 758). -/
def indentHtmlParams : List String := ["rawcode", "config"]

/-- The call at indent.py line 720 does not bind: `this_file` is missing. -/
theorem clean_inline_call_does_not_bind :
    pyCallBinds cleanInlineParams 0 cleanInlineCallKwargs = false := by decide

/-- The call `indent_html(cleaned_quoted_code, config, this_file=this_file)`
(reformat.py, line 34) does not bind: `indent_html` has no parameter
`this_file` left for the keyword. -/
theorem indent_html_call_does_not_bind :
    pyCallBinds indentHtmlParams 2 ["this_file"] = false := by decide

/-- The `TypeError` Python raises at indent.py line 720. -/
def typeErrorThisFile : List Char :=
  ('T' :: 'y' :: 'p' :: 'e' :: 'E' :: 'r' :: 'r' :: 'o' :: 'r' :: ':' :: ' ' :: [])
    ++ ('m' :: 'i' :: 's' :: 's' :: 'i' :: 'n' :: 'g' :: ' ' :: 'a' :: 'r' :: 'g' :: 'u' :: 'm' :: 'e' :: 'n' :: 't' :: ' ' :: [])
    ++ ('t' :: 'h' :: 'i' :: 's' :: '_' :: 'f' :: 'i' :: 'l' :: 'e' :: [])

/-- The loop of `process_indentation` exactly as written: each iteration
reaches the call at line 720, whose binding fails
(`clean_inline_call_does_not_bind`), so Python raises `TypeError`.  The
`.ok` continuation after the call is unreachable. -/
def processPyAux (flags : IndentFlags) (cls : Classifiers) (indent : List Char)
    (st : IState) (out : List Char) :
    List (List Char) → Except (List Char) (IState × List Char)
  | [] => .ok (st, out)
  | item :: rest =>
    let st1 := preUpdate cls st item
    let p := branchEmit flags cls indent st1 item
    let q := postAttr cls p.1 item p.2
    if pyCallBinds cleanInlineParams 0 cleanInlineCallKwargs then
      processPyAux flags cls indent (postClose cls q.1 item) (out ++ q.2) rest
    else
      .error typeErrorThisFile

/-- `process_indentation` exactly as written (no `this_file` threading):
the loop raises on its first iteration for every non-empty line list, so
the post-loop passes are reached only for an empty list. -/
def process_indentation_py (flags : IndentFlags) (cls : Classifiers)
    (setPass funcPass : List Char → List Char) (indent : List Char)
    (lines : List (List Char)) : Except (List Char) (List Char) :=
  match processPyAux flags cls indent initIState [] lines with
  | .error e => .error e
  | .ok (_, b) =>
    let b := if flags.no_set_formatting = false then setPass b else b
    let b := if flags.no_function_formatting = false then funcPass b else b
    let b := if ¬ flags.preserve_blank_lines then pyLStrip b else b
    .ok (pyRStrip b ++ ['\n'])

/-! ## Counter non-negativity (claim C8) -/

/-- Both persisted counters of the indentation pass are non-negative. -/
def IStateNonneg (st : IState) : Prop :=
  0 ≤ st.indent_level ∧ 0 ≤ st.ignored_level

theorem preUpdate_nonneg (cls : Classifiers) (st : IState) (item : List Char)
    (h : IStateNonneg st) : IStateNonneg (preUpdate cls st item) := by
  obtain ⟨h1, h2⟩ := h
  simp only [IStateNonneg]
  unfold preUpdate
  dsimp only
  split_ifs <;> (try dsimp only) <;> constructor <;> omega

theorem branchEmit_nonneg (flags : IndentFlags) (cls : Classifiers)
    (indent : List Char) (st : IState) (item : List Char)
    (h : IStateNonneg st) :
    IStateNonneg (branchEmit flags cls indent st item).1 := by
  obtain ⟨h1, h2⟩ := h
  simp only [IStateNonneg]
  unfold branchEmit
  cases classifyLine flags cls st item <;> (try dsimp only) <;> constructor <;> omega

theorem postAttr_nonneg (cls : Classifiers) (st : IState) (item tmp : List Char)
    (h : IStateNonneg st) : IStateNonneg (postAttr cls st item tmp).1 := by
  obtain ⟨h1, h2⟩ := h
  simp only [IStateNonneg]
  unfold postAttr
  split_ifs <;> (try dsimp only) <;> constructor <;> omega

theorem postClose_nonneg (cls : Classifiers) (st : IState) (item : List Char)
    (h : IStateNonneg st) : IStateNonneg (postClose cls st item) := by
  obtain ⟨h1, h2⟩ := h
  simp only [IStateNonneg]
  unfold postClose
  dsimp only
  split_ifs <;> (try dsimp only) <;> constructor <;> omega

theorem indentStateStep_nonneg (flags : IndentFlags) (cls : Classifiers)
    (indent : List Char) (st : IState) (item : List Char)
    (h : IStateNonneg st) :
    IStateNonneg (indentStateStep flags cls indent st item) :=
  postClose_nonneg _ _ _
    (postAttr_nonneg _ _ _ _
      (branchEmit_nonneg _ _ _ _ _ (preUpdate_nonneg _ _ _ h)))

theorem foldl_indentStateStep_nonneg (flags : IndentFlags) (cls : Classifiers)
    (indent : List Char) (lines : List (List Char)) (st : IState)
    (h : IStateNonneg st) :
    IStateNonneg (lines.foldl (indentStateStep flags cls indent) st) := by
  induction lines generalizing st with
  | nil => exact h
  | cons l ls ih =>
    exact ih _ (indentStateStep_nonneg flags cls indent st l h)

/-- C8: at every point during an indentation pass over any document — after
any number of processed lines, and at the intermediate points inside a line
(after the raw-tracking pre-update, after the branch cascade, after the
attribute step, and after the closing update) — the persisted
`indent_level` and the ignored-block nesting counter `ignored_level` are
≥ 0: every decrement of either counter in the source is immediately clamped
with `max(…, 0)` (indent.py, lines 607–608, 639, 647, 662, 664, 732–733). -/
theorem C8_counters_nonneg (flags : IndentFlags) (cls : Classifiers)
    (indent : List Char) :
    (∀ lines : List (List Char), ∀ n : Nat,
      IStateNonneg ((lines.take n).foldl (indentStateStep flags cls indent) initIState))
    ∧ (∀ st : IState, ∀ item tmp : List Char, IStateNonneg st →
        IStateNonneg (preUpdate cls st item)
        ∧ IStateNonneg (branchEmit flags cls indent st item).1
        ∧ IStateNonneg (postAttr cls st item tmp).1
        ∧ IStateNonneg (postClose cls st item)) := by
  constructor
  · intro lines n
    exact foldl_indentStateStep_nonneg flags cls indent _ _
      (by constructor <;> simp [initIState])
  · intro st item tmp h
    exact ⟨preUpdate_nonneg _ _ _ h, branchEmit_nonneg _ _ _ _ _ h,
      postAttr_nonneg _ _ _ _ h, postClose_nonneg _ _ _ h⟩

/-- A trivial classifier instantiation used by witnesses. -/
def trivialClassifiers : Classifiers :=
  { ignoredInlineBlock := fun _ => false, sltMatch := fun _ => false,
    fmtClose := fun _ => false, bracketClose := fun _ => false,
    tagUnindent := fun _ => false, sltUnanchored1 := fun _ => false,
    sltUnanchored2 := fun _ => false, sltAnchored := fun _ => false,
    tagUnindentLine := fun _ => false, setOpen := fun _ => false,
    bracketOpen := fun _ => false, tagIndent := fun _ => false,
    ignoredOpening := fun _ => false, ignoredClosing := fun _ => false,
    safeClosing := fun _ => false, scriptStyleOpening := fun _ => false,
    scriptStyleClosing := fun _ => false, attrSub := fun t => t }

def defaultFlags : IndentFlags :=
  { no_set_formatting := false, no_function_formatting := false,
    preserve_leading_space := false, preserve_blank_lines := false }

/-- Witness for `C8_counters_nonneg` at a concrete state and line. -/
theorem C8_counters_nonneg_witness :
    IStateNonneg (preUpdate trivialClassifiers initIState ['x'])
    ∧ IStateNonneg (branchEmit defaultFlags trivialClassifiers [' '] initIState ['x']).1
    ∧ IStateNonneg (postAttr trivialClassifiers initIState ['x'] ['x']).1
    ∧ IStateNonneg (postClose trivialClassifiers initIState ['x']) :=
  (C8_counters_nonneg defaultFlags trivialClassifiers [' ']).2 initIState ['x'] ['x']
    (by constructor <;> simp [initIState])

/-! ## The indentation pass raises as written (claim C2) -/

/-- C2 fails on the code: for every flag set, classifier instantiation,
post-pass, indent unit and every non-empty document, `process_indentation`
as literally written raises `TypeError` on its first line, because the call
`clean_inline_style_to_css_class(config=config, html=tmp)` at indent.py
line 720 omits the required `this_file` parameter (cssstyle.py, line 41).
No line list other than the empty one returns normally. -/
theorem C2_process_indentation_raises (flags : IndentFlags) (cls : Classifiers)
    (setPass funcPass : List Char → List Char) (indent : List Char)
    (item : List Char) (rest : List (List Char)) :
    process_indentation_py flags cls setPass funcPass indent (item :: rest)
      = .error typeErrorThisFile := by
  simp [process_indentation_py, processPyAux, clean_inline_call_does_not_bind]


/-! ## Raw-line treatment (claim C1) -/

/-- Inside a raw block (and not on a raw first line) the cascade always
lands in the verbatim branch (indent.py, line 697). -/
theorem classifyLine_raw (flags : IndentFlags) (cls : Classifiers)
    (st : IState) (item : List Char)
    (hraw : st.is_block_raw = true) (hfirst : st.is_raw_first_line = false) :
    classifyLine flags cls st item = .rawOrBlank := by
  unfold classifyLine
  simp [hraw, hfirst]

theorem preUpdate_raw_fields (cls : Classifiers) (st : IState) (item : List Char)
    (hopen : cls.ignoredOpening item = false)
    (hsafe : cls.safeClosing item = false) :
    (preUpdate cls st item).is_block_raw = st.is_block_raw
    ∧ (preUpdate cls st item).is_raw_first_line = st.is_raw_first_line := by
  unfold preUpdate
  simp [hopen, hsafe]
  split_ifs <;> simp

/-- Modelled from the spec: the raw-block helpers
(`is_ignored_block_opening`, `is_ignored_block_closing` from `helpers.py`,
which is not among the given sources) recognize configured raw-block
delimiters.  This concrete instantiation recognizes a `raw` /
`endraw` template tag standing alone on its line. -/
def rawClassifiers : Classifiers :=
  { trivialClassifiers with
    ignoredOpening := fun s => pyStrip s = "\x7b% raw %\x7d".data
    ignoredClosing := fun s => pyStrip s = "\x7b% endraw %\x7d".data }

/-- Flags disabling the set/function post-passes. -/
def c1Flags : IndentFlags :=
  { no_set_formatting := true, no_function_formatting := true,
    preserve_leading_space := false, preserve_blank_lines := false }

/-- The raw line of the C1 counterexample. -/
def c1RawLine : List Char := "<div style=\"color: red;\">".data

/-- A three-line document: a raw block containing a styled tag. -/
def c1Doc : List (List Char) :=
  ["\x7b% raw %\x7d".data, c1RawLine, "\x7b% endraw %\x7d".data]

/-- C1 fails on the code: in the document `c1Doc` the second line lies
inside a raw/ignored block (after the first line the pass is in raw mode),
but no line is ever reproduced in a formatted output — raw or otherwise:
`process_indentation` as literally written raises `TypeError` on its very
first line, because the style call at indent.py line 720 — the call that
the `elif is_block_raw is False` guard at line 715 does not protect —
omits the required `this_file` parameter of
`clean_inline_style_to_css_class` (cssstyle.py, line 41).  The formatted
output in which the claim promises the raw line back does not exist. -/
theorem C1_raw_line_not_reproduced :
    ((c1Doc.take 1).foldl
        (indentStateStep c1Flags rawClassifiers [' ',' ',' ',' '])
        initIState).is_block_raw = true
    ∧ process_indentation_py c1Flags rawClassifiers id id [' ',' ',' ',' '] c1Doc
      = .error typeErrorThisFile :=
  ⟨by decide, rfl⟩


/-! ## Minted class names (claim C5) -/

/-- C5 corrected: whenever a style text has no byte-equal entry in the rule
table, the minted class name is `"class-" ++ hash this_file ++ "-" ++
counter` (cssstyle.py, lines 33–34): it is a content-derived fingerprint of
the *source file* `this_file`, concatenated with the running counter.  For
a fixed counter value the minted name therefore depends only on the file
being processed, and not at all on the style text. -/
theorem C5_minted_name_from_file (hash : List Char -> List Char)
    (cfg : CssConfig) (css_classes : List (List Char)) (style file : List Char)
    (hmiss : (lookupByStyle cfg.css_rules style).getD [] = []) :
    (add_css_classes hash cfg css_classes style file).2
      = css_classes ++ [mkClassName (hash file) cfg.counter] := by
  unfold add_css_classes
  simp [hmiss]

/-- Witness for `C5_minted_name_from_file` on an empty rule table. -/
theorem C5_minted_name_from_file_witness :
    (add_css_classes shake256Hex5 ⟨[], 0, []⟩ [] ("color: red;".data)
        ("a.html".data)).2
      = [mkClassName (shake256Hex5 ("a.html".data)) 0] := by
  have h := C5_minted_name_from_file shake256Hex5 ⟨[], 0, []⟩ []
    ("color: red;".data) ("a.html".data) (by decide)
  simpa using h

/-- C5 fails on the code as stated: two *different* style texts, minted
against the same fresh table (counter 0, same file), receive the *same*
class name — the minted name is not a fingerprint of the style text at
all, hence not deterministic-and-collision-resistant in the style text. -/
theorem C5_counterexample :
    ("color: red;".data ≠ "font-size: 12px;".data)
    ∧ (add_css_classes shake256Hex5 ⟨[], 0, []⟩ [] ("color: red;".data)
        ("a.html".data)).2
      = (add_css_classes shake256Hex5 ⟨[], 0, []⟩ [] ("font-size: 12px;".data)
        ("a.html".data)).2 := by
  exact ⟨by decide, rfl⟩


/-! ## Style deduplication within one run (claim C6) -/

/-- One style occurrence processed during a run: the (unquoted) style text
and the file being processed. -/
structure StyleEvent where
  style : List Char
  file : List Char

/-- Processing of one style occurrence as in the loop of
`clean_inline_style_to_css_class` (lines 59–72): one `add_css_classes`
call (which appends the class assigned to this occurrence) followed by the
extra `config.counter += 1` at line 72.  The assigned class name is
recorded. -/
def runAdd (hash : List Char -> List Char)
    (st : CssConfig × List (List Char)) (ev : StyleEvent) :
    CssConfig × List (List Char) :=
  let r := add_css_classes hash st.1 [] ev.style ev.file
  ({ r.1 with counter := r.1.counter + 1 }, st.2 ++ [r.2.getLastD []])

/-- A whole run over a sequence of style occurrences, starting from the
fresh per-run table (empty rules, counter 0). -/
def cssRun (hash : List Char -> List Char) (evs : List StyleEvent) :
    CssConfig × List (List Char) :=
  evs.foldl (runAdd hash) (⟨[], 0, []⟩, [])

theorem mkClassName_inj_counter {r1 r2 : List Char} {c1 c2 : Nat}
    (hlen : r1.length = r2.length)
    (h : mkClassName r1 c1 = mkClassName r2 c2) : c1 = c2 := by
  unfold mkClassName at h
  have h2 : r1 ++ '-' :: pyIntRepr c1 = r2 ++ '-' :: pyIntRepr c2 := by
    simpa using congrArg (List.drop 6) h
  have h3 := (List.append_inj h2 hlen).2
  exact pyIntRepr_inj (by simpa using congrArg List.tail h3)

/-- Invariant of the rule table during a run: every class name has the
minted shape with a counter component below the running counter, names are
pairwise distinct, and stored style texts are pairwise distinct. -/
def CssInv (hash : List Char -> List Char) (cfg : CssConfig) : Prop :=
  (∀ p ∈ cfg.css_rules, ∃ f c, p.1 = mkClassName (hash f) c ∧ c < cfg.counter)
  ∧ (cfg.css_rules.map Prod.fst).Nodup
  ∧ (cfg.css_rules.map Prod.snd).Nodup

theorem mkClassName_ne_nil (r : List Char) (c : Nat) : mkClassName r c ≠ [] := by
  unfold mkClassName
  simp

/-- Under the invariant, the falsy lookup test of `add_css_classes` is
equivalent to the absence of an entry with the given style text. -/
theorem lookup_empty_iff (hash : List Char -> List Char) (cfg : CssConfig)
    (hinv : CssInv hash cfg) (style : List Char) :
    (lookupByStyle cfg.css_rules style).getD [] = []
      ↔ ∀ p ∈ cfg.css_rules, p.2 ≠ style := by
  obtain ⟨hshape, _, _⟩ := hinv
  unfold lookupByStyle
  constructor
  · intro h p hp hps
    rcases hfind : cfg.css_rules.find? (fun q => q.2 == style) with _ | q
    · have := List.find?_eq_none.mp hfind p hp
      simp [hps] at this
    · have hq := List.find?_some hfind
      have hqmem := List.mem_of_find?_eq_some hfind
      obtain ⟨f, c, hshape', _⟩ := hshape q hqmem
      rw [hfind] at h
      simp at h
      exact mkClassName_ne_nil (hash f) c (hshape' ▸ h)
  · intro h
    rcases hfind : cfg.css_rules.find? (fun q => q.2 == style) with _ | q
    · simp [hfind]
    · have hq := List.find?_some hfind
      have hqmem := List.mem_of_find?_eq_some hfind
      simp at hq
      exact absurd hq (h q hqmem)


/-- `add_css_classes` in closed form. -/
theorem add_css_classes_eq (hash : List Char -> List Char) (cfg : CssConfig)
    (css : List (List Char)) (s f : List Char) :
    add_css_classes hash cfg css s f
      = if (lookupByStyle cfg.css_rules s).getD [] = [] then
          ({ cfg with
              css_rules := cfg.css_rules ++ [(mkClassName (hash f) cfg.counter, s)],
              counter := cfg.counter + 1 },
            css ++ [mkClassName (hash f) cfg.counter])
        else ({ cfg with counter := cfg.counter + 1 },
          css ++ [(lookupByStyle cfg.css_rules s).getD []]) := by
  unfold add_css_classes
  dsimp only

theorem mem_snd_unique {α β : Type} {l : List (α × β)}
    (h : (l.map Prod.snd).Nodup) {a b : α} {s : β}
    (ha : (a, s) ∈ l) (hb : (b, s) ∈ l) : a = b := by
  induction l with
  | nil => cases ha
  | cons x xs ih =>
    simp only [List.map_cons, List.nodup_cons] at h
    rcases List.mem_cons.mp ha with ha1 | ha2 <;>
      rcases List.mem_cons.mp hb with hb1 | hb2
    · simpa using ha1.trans hb1.symm
    · exfalso
      apply h.1
      rw [← ha1]
      exact List.mem_map.mpr ⟨(b, s), hb2, rfl⟩
    · exfalso
      apply h.1
      rw [← hb1]
      exact List.mem_map.mpr ⟨(a, s), ha2, rfl⟩
    · exact ih h.2 ha2 hb2

theorem mem_fst_unique {α β : Type} {l : List (α × β)}
    (h : (l.map Prod.fst).Nodup) {a : α} {s t : β}
    (ha : (a, s) ∈ l) (hb : (a, t) ∈ l) : s = t := by
  induction l with
  | nil => cases ha
  | cons x xs ih =>
    simp only [List.map_cons, List.nodup_cons] at h
    rcases List.mem_cons.mp ha with ha1 | ha2 <;>
      rcases List.mem_cons.mp hb with hb1 | hb2
    · simpa using ha1.trans hb1.symm
    · exfalso
      apply h.1
      rw [← ha1]
      exact List.mem_map.mpr ⟨(a, t), hb2, rfl⟩
    · exfalso
      apply h.1
      rw [← hb1]
      exact List.mem_map.mpr ⟨(a, s), ha2, rfl⟩
    · exact ih h.2 ha2 hb2

/-- One `runAdd` step preserves the table invariant, only appends to the
table, and records an assigned name that is paired with the occurrence's
style text in the table. -/
theorem runAdd_step (hash : List Char -> List Char)
    (Hlen : ∀ x, (hash x).length = 10)
    (cfg : CssConfig) (asg : List (List Char)) (ev : StyleEvent)
    (hinv : CssInv hash cfg) :
    CssInv hash (runAdd hash (cfg, asg) ev).1
    ∧ (∃ suf, (runAdd hash (cfg, asg) ev).1.css_rules = cfg.css_rules ++ suf)
    ∧ (∃ n, (runAdd hash (cfg, asg) ev).2 = asg ++ [n]
        ∧ (n, ev.style) ∈ (runAdd hash (cfg, asg) ev).1.css_rules) := by
  obtain ⟨hshape, hfst, hsnd⟩ := hinv
  unfold runAdd
  rw [add_css_classes_eq]
  split_ifs with hmiss
  · -- a new class is minted
    have hnotin : ∀ p ∈ cfg.css_rules, p.2 ≠ ev.style :=
      (lookup_empty_iff hash cfg ⟨hshape, hfst, hsnd⟩ ev.style).mp hmiss
    refine ⟨⟨?_, ?_, ?_⟩, ⟨[(mkClassName (hash ev.file) cfg.counter, ev.style)], rfl⟩,
      ⟨mkClassName (hash ev.file) cfg.counter, by simp, by simp⟩⟩
    · intro p hp
      rcases List.mem_append.mp hp with hp1 | hp2
      · obtain ⟨f, c, hc1, hc2⟩ := hshape p hp1
        exact ⟨f, c, hc1, by dsimp only; omega⟩
      · simp at hp2
        exact ⟨ev.file, cfg.counter, by rw [hp2], by dsimp only; omega⟩
    · rw [List.map_append, List.nodup_append]
      refine ⟨hfst, by simp, ?_⟩
      intro a ha hb
      simp at hb
      obtain ⟨p, hp, hpa⟩ := List.mem_map.mp ha
      obtain ⟨f, c, hc1, hc2⟩ := hshape p hp
      rw [← hpa, hc1] at hb
      have := mkClassName_inj_counter
        ((Hlen f).trans (Hlen ev.file).symm) hb
      omega
    · rw [List.map_append, List.nodup_append]
      refine ⟨hsnd, by simp, ?_⟩
      intro a ha hb
      simp at hb
      obtain ⟨p, hp, hpa⟩ := List.mem_map.mp ha
      exact hnotin p hp (by rw [hpa, hb])
  · -- an existing class with byte-equal style text is reused
    have hfound : ∃ q ∈ cfg.css_rules,
        q.2 = ev.style ∧ q.1 = (lookupByStyle cfg.css_rules ev.style).getD [] := by
      unfold lookupByStyle at hmiss ⊢
      rcases hfind : cfg.css_rules.find? (fun q => q.2 == ev.style) with _ | q
      · rw [hfind] at hmiss; simp at hmiss
      · have hq := List.find?_some hfind
        simp at hq
        exact ⟨q, List.mem_of_find?_eq_some hfind, hq, by rw [hfind]; rfl⟩
    obtain ⟨q, hqmem, hqs, hqn⟩ := hfound
    refine ⟨⟨?_, hfst, hsnd⟩, ⟨[], by simp⟩,
      ⟨(lookupByStyle cfg.css_rules ev.style).getD [], by simp, ?_⟩⟩
    · intro p hp
      obtain ⟨f, c, hc1, hc2⟩ := hshape p hp
      exact ⟨f, c, hc1, by dsimp only; omega⟩
    · dsimp only
      rw [← hqn, ← hqs]
      exact hqmem


/-- Folding a run preserves the invariant, only appends to the table, and
pairs every occurrence's assigned name with its style text in the table. -/
theorem cssRun_fold (hash : List Char -> List Char)
    (Hlen : ∀ x, (hash x).length = 10) :
    ∀ (evs : List StyleEvent) (cfg : CssConfig) (asg : List (List Char)),
      CssInv hash cfg →
      CssInv hash (evs.foldl (runAdd hash) (cfg, asg)).1
      ∧ (∃ suf, (evs.foldl (runAdd hash) (cfg, asg)).1.css_rules
          = cfg.css_rules ++ suf)
      ∧ ∃ names, (evs.foldl (runAdd hash) (cfg, asg)).2 = asg ++ names
          ∧ names.length = evs.length
          ∧ ∀ k, k < evs.length →
              (names.getD k [], (evs.getD k ⟨[], []⟩).style)
                ∈ (evs.foldl (runAdd hash) (cfg, asg)).1.css_rules := by
  intro evs
  induction evs with
  | nil =>
    intro cfg asg hinv
    exact ⟨hinv, ⟨[], by simp⟩, ⟨[], by simp, rfl, by intro k hk; cases hk⟩⟩
  | cons ev rest ih =>
    intro cfg asg hinv
    obtain ⟨hinv1, ⟨suf0, hsuf0⟩, ⟨n0, hn0, hmem0⟩⟩ :=
      runAdd_step hash Hlen cfg asg ev hinv
    have hfold : (ev :: rest).foldl (runAdd hash) (cfg, asg)
        = rest.foldl (runAdd hash)
            ((runAdd hash (cfg, asg) ev).1, (runAdd hash (cfg, asg) ev).2) := by
      simp [List.foldl_cons]
    obtain ⟨hinvF, ⟨suf1, hsuf1⟩, ⟨names, hnames, hlen, hk⟩⟩ :=
      ih (runAdd hash (cfg, asg) ev).1 (runAdd hash (cfg, asg) ev).2 hinv1
    rw [hfold]
    refine ⟨hinvF, ⟨suf0 ++ suf1, by rw [hsuf1, hsuf0, List.append_assoc]⟩,
      ⟨n0 :: names, ?_, by simpa using hlen, ?_⟩⟩
    · rw [hnames, hn0]
      simp
    · intro k hkk
      match k with
      | 0 =>
        have : ((rest.foldl (runAdd hash)
            ((runAdd hash (cfg, asg) ev).1, (runAdd hash (cfg, asg) ev).2)).1).css_rules
            = (runAdd hash (cfg, asg) ev).1.css_rules ++ suf1 := hsuf1
        rw [this]
        exact List.mem_append_left _ hmem0
      | k + 1 =>
        exact hk k (by simpa using hkk)

/-! ### The deduplication step of `remove_duplicate_classes` -/

theorem dedupAux_not_seen :
    ∀ (bs : List (List Char)) (seen : List (List Char)) (b : List Char),
      b ∈ dedupBlocksAux seen bs → selectorOf b ∉ seen := by
  intro bs
  induction bs with
  | nil => intro seen b hb; cases hb
  | cons x xs ih =>
    intro seen b hb
    unfold dedupBlocksAux at hb
    split at hb
    · exact ih seen b hb
    · rcases List.mem_cons.mp hb with hb1 | hb2
      · subst hb1
        simp_all
      · have := ih (seen ++ [selectorOf x]) b hb2
        intro hmem
        exact this (List.mem_append_left _ hmem)

theorem dedupAux_selectors_nodup :
    ∀ (bs : List (List Char)) (seen : List (List Char)),
      ((dedupBlocksAux seen bs).map selectorOf).Nodup := by
  intro bs
  induction bs with
  | nil => intro seen; simp [dedupBlocksAux]
  | cons x xs ih =>
    intro seen
    unfold dedupBlocksAux
    split
    · exact ih seen
    · rw [List.map_cons, List.nodup_cons]
      refine ⟨?_, ih (seen ++ [selectorOf x])⟩
      intro hmem
      obtain ⟨b, hb, hsel⟩ := List.mem_map.mp hmem
      have := dedupAux_not_seen xs (seen ++ [selectorOf x]) b hb
      exact this (by rw [hsel]; simp)

theorem dedupAux_mem :
    ∀ (bs : List (List Char)) (seen : List (List Char)) (b : List Char),
      b ∈ dedupBlocksAux seen bs → b ∈ bs := by
  intro bs
  induction bs with
  | nil => intro seen b hb; cases hb
  | cons x xs ih =>
    intro seen b hb
    unfold dedupBlocksAux at hb
    split at hb
    · exact List.mem_cons_of_mem _ (ih seen b hb)
    · rcases List.mem_cons.mp hb with hb1 | hb2
      · exact hb1 ▸ List.mem_cons_self _ _
      · exact List.mem_cons_of_mem _ (ih (seen ++ [selectorOf x]) b hb2)

theorem dedupAux_first :
    ∀ (bs : List (List Char)) (seen : List (List Char)) (b : List Char),
      b ∈ dedupBlocksAux seen bs →
      bs.find? (fun x => selectorOf x == selectorOf b) = some b := by
  intro bs
  induction bs with
  | nil => intro seen b hb; cases hb
  | cons x xs ih =>
    intro seen b hb
    unfold dedupBlocksAux at hb
    split at hb
    · next hseen =>
      have hne : selectorOf x ≠ selectorOf b := by
        intro he
        exact dedupAux_not_seen xs seen b hb (he ▸ (by simpa using hseen))
      rw [List.find?_cons_of_neg _ (by simpa using hne)]
      exact ih seen b hb
    · next hseen =>
      rcases List.mem_cons.mp hb with hb1 | hb2
      · subst hb1
        rw [List.find?_cons_of_pos _ (by simp)]
      · have hnot := dedupAux_not_seen xs (seen ++ [selectorOf x]) b hb2
        have hne : selectorOf x ≠ selectorOf b := by
          intro he
          exact hnot (by rw [← he]; simp)
        rw [List.find?_cons_of_neg _ (by simpa using hne)]
        exact ih (seen ++ [selectorOf x]) b hb2

theorem dedupAux_complete :
    ∀ (bs : List (List Char)) (seen : List (List Char)) (b : List Char),
      b ∈ bs → selectorOf b ∉ seen →
      ∃ b', b' ∈ dedupBlocksAux seen bs ∧ selectorOf b' = selectorOf b := by
  intro bs
  induction bs with
  | nil => intro seen b hb; cases hb
  | cons x xs ih =>
    intro seen b hb hseen
    unfold dedupBlocksAux
    split
    · next hx =>
      rcases List.mem_cons.mp hb with hb1 | hb2
      · exact absurd (by rw [hb1]; simpa using hx) hseen
      · exact ih seen b hb2 hseen
    · next hx =>
      by_cases hsel : selectorOf x = selectorOf b
      · exact ⟨x, List.mem_cons_self _ _, hsel⟩
      · rcases List.mem_cons.mp hb with hb1 | hb2
        · exact absurd (congrArg selectorOf hb1).symm hsel
        · obtain ⟨b', hb', hsel'⟩ := ih (seen ++ [selectorOf x]) b hb2
            (by
              intro hmem
              rcases List.mem_append.mp hmem with h1 | h2
              · exact hseen h1
              · simp at h2
                exact hsel h2.symm)
          exact ⟨b', List.mem_cons_of_mem _ hb', hsel'⟩


/-- C6: within one run (a sequence of style occurrences processed through
`add_css_classes` starting from the fresh per-run table), any two
occurrences with byte-identical style text are assigned the same generated
class name; any two occurrences with different style text are assigned
different class names; and the deduplication step of
`remove_duplicate_classes` leaves exactly one rule block per distinct class
selector — the selectors of the kept blocks are pairwise distinct, every
kept block is the first block of the file with its selector, every selector
of the file is still represented, and the rewritten file is exactly the
kept blocks each followed by a newline. -/
theorem C6_style_dedup (hash : List Char -> List Char)
    (Hlen : ∀ x, (hash x).length = 10) (evs : List StyleEvent)
    (i j : Nat) (hi : i < evs.length) (hj : j < evs.length) :
    ((evs.getD i ⟨[], []⟩).style = (evs.getD j ⟨[], []⟩).style →
        (cssRun hash evs).2.getD i [] = (cssRun hash evs).2.getD j [])
    ∧ ((evs.getD i ⟨[], []⟩).style ≠ (evs.getD j ⟨[], []⟩).style →
        (cssRun hash evs).2.getD i [] ≠ (cssRun hash evs).2.getD j [])
    ∧ (∀ content : List Char,
        ((dedupBlocks (cssBlocks (content.length + 1) content)).map selectorOf).Nodup
        ∧ (∀ b ∈ dedupBlocks (cssBlocks (content.length + 1) content),
            (cssBlocks (content.length + 1) content).find?
              (fun x => selectorOf x == selectorOf b) = some b)
        ∧ (∀ b ∈ cssBlocks (content.length + 1) content,
            ∃ b', b' ∈ dedupBlocks (cssBlocks (content.length + 1) content)
              ∧ selectorOf b' = selectorOf b)
        ∧ remove_duplicate_classes content
            = ((dedupBlocks (cssBlocks (content.length + 1) content)).map
                (· ++ ['\n'])).flatten) := by
  have hinv0 : CssInv hash ⟨[], 0, []⟩ := ⟨by simp, by simp, by simp⟩
  obtain ⟨hinvF, _, ⟨names, hnames, hlen, hk⟩⟩ :=
    cssRun_fold hash Hlen evs ⟨[], 0, []⟩ [] hinv0
  have hrun : (cssRun hash evs).2 = names := by
    unfold cssRun
    rw [hnames]
    simp
  have hmemI := hk i hi
  have hmemJ := hk j hj
  refine ⟨?_, ?_, ?_⟩
  · intro hs
    rw [hrun]
    rw [hs] at hmemI
    exact mem_snd_unique hinvF.2.2 hmemI hmemJ
  · intro hs heq
    rw [hrun] at heq
    rw [heq] at hmemI
    exact hs (mem_fst_unique hinvF.2.1 hmemI hmemJ)
  · intro content
    refine ⟨dedupAux_selectors_nodup _ [], ?_, ?_, rfl⟩
    · intro b hb
      exact dedupAux_first _ [] b hb
    · intro b hb
      exact dedupAux_complete _ [] b hb (by simp)

/-- The concrete run used by the C6 witness. -/
def c6Events : List StyleEvent :=
  [⟨"color: red;".data, "a.html".data⟩,
   ⟨"font-size: 12px;".data, "a.html".data⟩,
   ⟨"color: red;".data, "b.html".data⟩]

/-- Witness for `C6_style_dedup`: in a concrete run the first and third
occurrences (identical style text, different files) get the same class,
the first and second (different style text, same file) get different
classes, and the deduplication scenario from the specification holds. -/
theorem C6_style_dedup_witness :
    ((cssRun shake256Hex5 c6Events).2.getD 0 []
        = (cssRun shake256Hex5 c6Events).2.getD 2 [])
    ∧ ((cssRun shake256Hex5 c6Events).2.getD 0 []
        ≠ (cssRun shake256Hex5 c6Events).2.getD 1 [])
    ∧ remove_duplicate_classes
        (".class1 \x7bcolor: red;\x7d\n.class2 \x7bfont-size: 12px;\x7d\n.class1 \x7bcolor: blue;\x7d\n".data)
      = ".class1 \x7bcolor: red;\x7d\n.class2 \x7bfont-size: 12px;\x7d\n".data := by
  refine ⟨?_, ?_, by decide⟩
  · exact (C6_style_dedup shake256Hex5 shake256Hex5_length c6Events 0 2
      (by decide) (by decide)).1 (by decide)
  · exact (C6_style_dedup shake256Hex5 shake256Hex5_length c6Events 0 1
      (by decide) (by decide)).2.1 (by decide)


/-! ## `attributes.py`: attribute reflow (claim C7) -/

/-- A match of the tag pattern of `apply_indentation_substitution`
(indent.py, line 393): `(\s*?)` leading space, `(<tag)` the opening,
the attribute run, and the closing bracket.  The pattern is four adjacent
groups, so the whole match is their concatenation. -/
structure TagMatch where
  group1 : List Char
  group2 : List Char
  group3 : List Char
  group4 : List Char

/-- `match.group()`. -/
def TagMatch.group0 (m : TagMatch) : List Char :=
  m.group1 ++ m.group2 ++ m.group3 ++ m.group4

/-- One match of `config.attribute_pattern` (the pattern itself lives in
`settings.py`, outside the given sources): `group(1)` attribute name,
`group(2)` value, `group(3)` standalone token; absent groups are `none`. -/
structure AttrGrp where
  name : Option (List Char)
  value : Option (List Char)
  standalone : Option (List Char)

/-- Python truthiness of an optional string (None and "" are falsy). -/
def truthy : Option (List Char) → Bool
  | none => false
  | some s => s ≠ []

/-- Model of Python `str.lower()`. -/
def pyLower (s : List Char) : List Char := s.map Char.toLower

/-- The `[value.strip() for value in v.split(sep) if value.strip()]`
comprehension joined with `sep' = sep + join_space`. -/
def splitJoinAttr (sep join_space v : List Char) : List Char :=
  pyJoin (sep ++ join_space)
    (((pySplit sep v).map pyStrip).filter (· ≠ []))

/-- The body of the `for attr_grp in re.finditer(...)` loop of
`format_attributes` (attributes.py, lines 131–203), for one attribute
group.  `formatTplTags` abstracts `format_template_tags`, whose break and
indent patterns come from the configuration. -/
def formatOneAttr (formatTplTags : List Char → Nat → List Char)
    (fmtTplFlag : Bool) (ignored_attributes : List (List Char))
    (spacing : List Char) (grp : AttrGrp) : List Char :=
  let attrib_name := grp.name
  let is_quoted := truthy grp.value
    ∧ ((grp.value.getD []).head? = some '\'' ∨ (grp.value.getD []).head? = some '"')
  let quote : Char := if is_quoted then (grp.value.getD []).headD '"' else '"'
  let attrib_value : Option (List Char) :=
    if truthy grp.value
        ∧ (grp.value.getD []).head? = (grp.value.getD []).getLast? then
      if (grp.value.getD []).head? = some '\'' then
        some (pyStripChar '\'' (grp.value.getD []))
      else if (grp.value.getD []).head? = some '"' then
        some (pyStripChar '"' (grp.value.getD []))
      else grp.value
    else grp.value
  let standalone := grp.standalone
  let quote_length : Nat :=
    if truthy attrib_name ∧ truthy attrib_value then 2 else 1
  let join_space : List Char :=
    if fmtTplFlag then '\n' :: spacing
    else '\n' :: spacing
      ++ List.replicate (quote_length + (attrib_name.getD []).length) ' '
  let attrib_value : Option (List Char) :=
    if truthy attrib_name ∧ pyLower (attrib_name.getD []) = "style".data then
      some (splitJoinAttr [';'] join_space (attrib_value.getD []))
    else if truthy attrib_name
        ∧ (pyLower (attrib_name.getD []) = "srcset".data
          ∨ pyLower (attrib_name.getD []) = "data-srcset".data
          ∨ pyLower (attrib_name.getD []) = "sizes".data) then
      some (splitJoinAttr ['x',','] join_space
        (splitJoinAttr ['w',','] join_space (attrib_value.getD [])))
    else attrib_value
  let attrib_value : Option (List Char) :=
    if fmtTplFlag ∧ truthy attrib_value
        ∧ ¬ ignored_attributes.contains (attrib_name.getD []) then
      some (formatTplTags (attrib_value.getD [])
        (spacing.length + (attrib_name.getD []).length + quote_length))
    else attrib_value
  let standalone : Option (List Char) :=
    if fmtTplFlag ∧ truthy standalone then
      some (formatTplTags (standalone.getD [])
        (spacing.length + (attrib_name.getD []).length))
    else standalone
  if (truthy attrib_name ∧ truthy attrib_value) ∨ is_quoted then
    attrib_name.getD [] ++ '=' :: quote :: attrib_value.getD [] ++ [quote]
  else
    attrib_name.getD [] ++ attrib_value.getD [] ++ standalone.getD []

/-- `format_attributes` (attributes.py, lines 113–214).  `childIgnored`
abstracts `child_of_ignored_block` (helpers.py, outside the given
sources); `attrFinditer` abstracts `re.finditer(config.attribute_pattern,
…)`. -/
def format_attributes (attrFinditer : List Char → List AttrGrp)
    (formatTplTags : List Char → Nat → List Char) (fmtTplFlag : Bool)
    (ignored_attributes : List (List Char)) (max_attribute_length : Nat)
    (childIgnored : Bool) (m : TagMatch) : List Char :=
  if childIgnored ∨ (pyStrip m.group3).length < max_attribute_length then
    m.group0
  else
    let leading_space := m.group1
    let tag := m.group2 ++ [' ']
    let spacing := leading_space ++ List.replicate tag.length ' '
    let attributes := (attrFinditer (pyStrip m.group3)).map
      (formatOneAttr formatTplTags fmtTplFlag ignored_attributes spacing)
    let attribute_string :=
      pyJoin ('\n' :: spacing) (attributes.filter (· ≠ []))
    let attribute_string := leading_space ++ tag ++ attribute_string ++ m.group4
    pyJoin ['\n'] ((pySplitlines attribute_string).map pyRStrip)

/-- C7: for every matched tag not inside an ignored block,
`format_attributes` returns the matched text completely unchanged whenever
the stripped attribute string is shorter than `max_attribute_length`, and
consequently rewrites the tag only when that stripped length is at least
`max_attribute_length` (attributes.py, lines 116–121). -/
theorem C7_threshold_gating (attrFinditer : List Char → List AttrGrp)
    (formatTplTags : List Char → Nat → List Char) (fmtTplFlag : Bool)
    (ignored_attributes : List (List Char)) (max_attribute_length : Nat)
    (m : TagMatch) :
    ((pyStrip m.group3).length < max_attribute_length →
      format_attributes attrFinditer formatTplTags fmtTplFlag
        ignored_attributes max_attribute_length false m = m.group0)
    ∧ (format_attributes attrFinditer formatTplTags fmtTplFlag
        ignored_attributes max_attribute_length false m ≠ m.group0 →
      max_attribute_length ≤ (pyStrip m.group3).length) := by
  constructor
  · intro h
    unfold format_attributes
    rw [if_pos (Or.inr h)]
  · intro hne
    by_contra hlt
    apply hne
    unfold format_attributes
    rw [if_pos (Or.inr (by omega))]

/-- Witness for `C7_threshold_gating`: a concrete short tag is returned
unchanged. -/
theorem C7_threshold_gating_witness :
    format_attributes (fun _ => []) (fun s _ => s) false [] 70 false
      ⟨[], "<div".data, " class=\"x\"".data, ">".data⟩
      = TagMatch.group0 ⟨[], "<div".data, " class=\"x\"".data, ">".data⟩ :=
  (C7_threshold_gating (fun _ => []) (fun s _ => s) false [] 70
    ⟨[], "<div".data, " class=\"x\"".data, ">".data⟩).1 (by decide)


/-! ## `format_data` and the set-tag value fallback (claim C4) -/

/-- JSON-like values for the structured-parse model. -/
inductive JVal where
  | jnull
  | jbool (b : Bool)
  | jint (neg : Bool) (n : Nat)
  | jstr (s : List Char)
  | jarr (xs : List JVal)
  | jobj (kvs : List (List Char × JVal))

/-- Digits of a literal as a natural number. -/
def parseNatDigits (s : List Char) : Option Nat :=
  if s ≠ [] ∧ s.all Char.isDigit then
    some (s.foldl (fun a c => a * 10 + (c.toNat - 48)) 0)
  else none

/-- Read characters up to an unescaped closing quote (escape-free model). -/
def readQuoted (q : Char) : List Char → Option (List Char × List Char)
  | [] => none
  | c :: cs =>
    if c = q then some ([], cs)
    else (readQuoted q cs).map (fun p => (c :: p.1, p.2))

/-- One scalar literal of the structured grammar: `null`, booleans,
integers (optional sign), and quoted strings. -/
def j5Scalar (s : List Char) : Option (JVal × List Char) :=
  match s with
  | 'n' :: 'u' :: 'l' :: 'l' :: r => some (.jnull, r)
  | 't' :: 'r' :: 'u' :: 'e' :: r => some (.jbool true, r)
  | 'f' :: 'a' :: 'l' :: 's' :: 'e' :: r => some (.jbool false, r)
  | '"' :: r => (readQuoted '"' r).map (fun p => (.jstr p.1, p.2))
  | '\'' :: r => (readQuoted '\'' r).map (fun p => (.jstr p.1, p.2))
  | '-' :: r =>
    let ds := r.takeWhile Char.isDigit
    (parseNatDigits ds).map (fun n => (.jint true n, r.dropWhile Char.isDigit))
  | '+' :: r =>
    let ds := r.takeWhile Char.isDigit
    (parseNatDigits ds).map (fun n => (.jint false n, r.dropWhile Char.isDigit))
  | r =>
    let ds := r.takeWhile Char.isDigit
    (parseNatDigits ds).map (fun n => (.jint false n, r.dropWhile Char.isDigit))

/-- Elements of an array of scalars (fuelled comma loop). -/
def j5ArrTail (fuel : Nat) (acc : List JVal) (s : List Char) :
    Option (JVal × List Char) :=
  match fuel with
  | 0 => none
  | fuel + 1 =>
    match s.dropWhile isPySpace with
    | ']' :: r => some (.jarr acc.reverse, r)
    | s' =>
      match j5Scalar s' with
      | none => none
      | some (v, r) =>
        match r.dropWhile isPySpace with
        | ',' :: r2 => j5ArrTail fuel (v :: acc) r2
        | ']' :: r2 => some (.jarr (v :: acc).reverse, r2)
        | _ => none

/-- Model of `json5.loads` (the external `json5` library imported as
`json` at indent.py line 9), on the bounded-nesting fragment used by the
theorems below: a scalar or a flat array of scalars, with surrounding
whitespace, and nothing trailing.  Inputs outside the grammar — in
particular arithmetic expressions such as `1+1` — yield `none`, as the
library raises on them. -/
def json5LoadsModel (s : List Char) : Option JVal :=
  let s1 := s.dropWhile isPySpace
  let res :=
    match s1 with
    | '[' :: r => j5ArrTail (r.length + 1) [] r
    | _ => j5Scalar s1
  match res with
  | none => none
  | some (v, rest) => if rest.dropWhile isPySpace = [] then some v else none

/-- Serialization of a scalar value. -/
def jDumpScalar : JVal → List Char
  | .jnull => "null".data
  | .jbool true => "true".data
  | .jbool false => "false".data
  | .jint true n => '-' :: pyIntRepr n
  | .jint false n => pyIntRepr n
  | .jstr s => '"' :: s ++ ['"']
  | .jarr _ => []
  | .jobj _ => []

/-- Compact serialization model (`json.dumps(..., trailing_commas=False,
ensure_ascii=False, quote_keys=True)`) on the same bounded-nesting
fragment as `json5LoadsModel`. -/
def jDumpsCompact : JVal → List Char
  | .jarr xs => '[' :: pyJoin [',', ' '] (xs.map jDumpScalar) ++ [']']
  | .jobj kvs => '\x7b' :: pyJoin [',', ' ']
      (kvs.map (fun p => '"' :: p.1 ++ '"' :: ':' :: ' ' :: jDumpScalar p.2))
      ++ ['\x7d']
  | v => jDumpScalar v

/-- Indented serialization model (`json.dumps(..., indent=n)`); the
theorems below never depend on its exact shape. -/
def jDumpsIndent (v : JVal) (n : Nat) : List Char :=
  match v with
  | .jarr xs => '[' :: '\n' ::
      pyJoin [',', '\n'] (xs.map (fun x => List.replicate n ' ' ++ jDumpsCompact x))
      ++ '\n' :: [']']
  | .jobj kvs => '\x7b' :: '\n' ::
      pyJoin [',', '\n'] (kvs.map (fun p => List.replicate n ' '
        ++ '"' :: p.1 ++ '"' :: ':' :: ' ' :: jDumpScalar p.2))
      ++ '\n' :: ['\x7d']
  | v => jDumpsCompact v

/-- Model of the host language's `eval` followed by `str(...)` (indent.py,
line 479), on the integer-sum fragment exercised below: `eval` *executes*
the expression, so `1+1` evaluates to `2`; inputs outside the fragment are
modelled as raising (`none`). -/
def py_eval_model (s : List Char) : Option (List Char) :=
  let fields := (pySplit ['+'] s).map pyStrip
  let nums := fields.map parseNatDigits
  if nums.all Option.isSome ∧ fields.length ≥ 1 then
    some (pyIntRepr ((nums.map (fun o => o.getD 0)).foldl (· + ·) 0))
  else none

/-- `format_data` (indent.py, lines 440–490).  `jsonLoads`, the two
serializers and `pyEval` abstract the external `json5` library and the
built-in `eval`; the control flow (try structured parse; on failure try
`eval` unless the contents are the keyword `object`; on failure strip) is
transcribed from the source. -/
def format_data {J : Type} (jsonLoads : List Char → Option J)
    (dumpsCompact : J → List Char) (dumpsIndent : J → Nat → List Char)
    (pyEval : List Char → Option (List Char))
    (max_line_length indent_size : Nat)
    (contents : List Char) (tag_size : Nat) (leading_space : List Char) :
    List Char :=
  let result :=
    match jsonLoads contents with
    | some data =>
      let c := dumpsCompact data
      if max_line_length ≤ tag_size + c.length then dumpsIndent data indent_size
      else c
    | none =>
      match (if contents = "object".data then some contents
             else pyEval contents) with
      | some evaluated =>
        if contents.take 1 ≠ ['('] ∧ evaluated.take 1 = ['('] then
          (evaluated.drop 1).dropLast
        else evaluated
      | none => pyStrip contents
  pyJoin ('\n' :: leading_space) (pySplitlines result)

/-- Modelled from the spec: "a restricted literal grammar (numbers,
strings, booleans, arrays/objects, tuples) parsed safely; do not execute
host-language code".  The spec-side comparator for C4: try the restricted
literal parse; on failure leave the value verbatim (trimmed). -/
def format_data_spec (contents : List Char) (leading_space : List Char) :
    List Char :=
  match json5LoadsModel contents with
  | some v => pyJoin ('\n' :: leading_space) (pySplitlines (jDumpsCompact v))
  | none => pyJoin ('\n' :: leading_space) (pySplitlines (pyStrip contents))

/-- C4 amended: when the structured parse fails, `format_data` falls back
to the host language's `eval` — which *executes* the expression — and uses
its (possibly unwrapped) string rendering; only if the evaluation raises
are the returned contents the original value verbatim (trimmed).  In either
case the function returns normally: no failure is surfaced to the caller. -/
theorem C4_eval_fallback {J : Type} (jsonLoads : List Char → Option J)
    (dumpsCompact : J → List Char) (dumpsIndent : J → Nat → List Char)
    (pyEval : List Char → Option (List Char))
    (max_line_length indent_size : Nat)
    (contents : List Char) (tag_size : Nat) (leading_space : List Char)
    (hjson : (jsonLoads contents).isNone = true)
    (hobj : contents ≠ "object".data) :
    (pyEval contents = none →
      format_data jsonLoads dumpsCompact dumpsIndent pyEval max_line_length
          indent_size contents tag_size leading_space
        = pyJoin ('\n' :: leading_space) (pySplitlines (pyStrip contents)))
    ∧ (∀ ev, pyEval contents = some ev →
      format_data jsonLoads dumpsCompact dumpsIndent pyEval max_line_length
          indent_size contents tag_size leading_space
        = pyJoin ('\n' :: leading_space) (pySplitlines
            (if contents.take 1 ≠ ['('] ∧ ev.take 1 = ['('] then
              (ev.drop 1).dropLast
            else ev))) := by
  rw [Option.isNone_iff_eq_none] at hjson
  constructor
  · intro hev
    unfold format_data
    rw [hjson]
    simp [hobj, hev]
  · intro ev hev
    unfold format_data
    rw [hjson]
    simp [hobj, hev]

/-- Witness for `C4_eval_fallback`: for `abc $ def` both the structured
parse and the evaluation fail, and the returned contents are the original
value verbatim (trimmed); for `1+1` the evaluation succeeds with `2`. -/
theorem C4_eval_fallback_witness :
    (format_data json5LoadsModel jDumpsCompact jDumpsIndent py_eval_model
        120 4 (" abc $ def ".data) 10 [] = "abc $ def".data)
    ∧ (format_data json5LoadsModel jDumpsCompact jDumpsIndent py_eval_model
        120 4 ("1+1".data) 10 [] = "2".data) := by
  constructor
  · have h := (C4_eval_fallback json5LoadsModel jDumpsCompact jDumpsIndent
      py_eval_model 120 4 (" abc $ def ".data) 10 [] (by decide) (by decide)).1
      (by decide)
    rw [h]
    decide
  · have h := (C4_eval_fallback json5LoadsModel jDumpsCompact jDumpsIndent
      py_eval_model 120 4 ("1+1".data) 10 [] (by decide) (by decide)).2
      ("2".data) (by decide)
    rw [h]
    decide

/-- C4 fails on the code as stated: the fallback is not a safe restricted
literal parse.  On the value `1+1` — which the restricted literal grammar
rejects, so the claim requires the contents to stay `1+1` verbatim — the
code hands the value to `eval`, which executes the addition and yields
`2`. -/
theorem C4_counterexample :
    format_data json5LoadsModel jDumpsCompact jDumpsIndent py_eval_model
        120 4 ("1+1".data) 10 [] = "2".data
    ∧ format_data_spec ("1+1".data) [] = "1+1".data
    ∧ "2".data ≠ "1+1".data := by
  refine ⟨by decide, by decide, by decide⟩


/-! ## `reformat.py`: the formatter pipeline (claim C3) -/

/-- The line-ending restoration at reformat.py, lines 44–48. -/
def restoreCRLF (rawcode b : List Char) : List Char :=
  match rawcode.findIdx? (· = '\n') with
  | none => b
  | some i =>
    if rawcode.getD (i - 1) ' ' = '\r' then
      (b.filter (· ≠ '\r')).flatMap (fun c => if c = '\n' then ['\r', '\n'] else [c])
    else b

/-- The `TypeError` Python raises at reformat.py line 34. -/
def typeErrorIndentHtml : List Char :=
  "TypeError: unexpected keyword argument this_file".data

/-- `formatter` (reformat.py, lines 20–50).  The collaborator passes
(`compress_html`, `expand_html`, `clean_whitespace`, `clean_single_quotes`,
`condense_html`, `format_css`, `format_js`) live in separate modules and
are taken as text-to-text parameters; `indentFn` stands for what
`indent_html` would return if it were called successfully.  The call
`indent_html(cleaned_quoted_code, config, this_file=this_file)` at line 34
is bound per Python's calling convention against `indent_html`'s parameter
list `(rawcode, config)` (indent.py, line 758); the binding fails
(`indent_html_call_does_not_bind`), so Python raises `TypeError` there and
the rest of the pipeline is unreachable. -/
def formatter (compress expand cleanWS singleQ condense fcss fjs :
      List Char → List Char)
    (format_css format_js : Bool) (indentFn : List Char → List Char)
    (rawcode : List Char) : Except (List Char) (List Char) :=
  if rawcode = [] then .ok rawcode
  else
    let compressed := compress (pyJoin ['\n'] (pySplitlines rawcode))
    let expanded := expand compressed
    let condensed := cleanWS expanded
    let cleaned_quoted_code := singleQ condensed
    if pyCallBinds indentHtmlParams 2 ["this_file"] then
      let indented_code := indentFn cleaned_quoted_code
      let beautified_code := condense indented_code
      let b := if format_css then fcss beautified_code else beautified_code
      let b := if format_js then fjs b else b
      .ok (restoreCRLF rawcode b)
    else
      .error typeErrorIndentHtml

/-- C3 fails on the code: for every collaborator instantiation and every
non-empty document, `formatter` raises `TypeError` — `reformat.py` line 34
passes the keyword `this_file` to `indent_html`, which has no such
parameter — so `format(x)` produces no output at all and
`format(format(x)) == format(x)` cannot hold for any non-empty `x` (the
empty document returns early and is the only fixed point). -/
theorem C3_formatter_raises (compress expand cleanWS singleQ condense fcss
      fjs : List Char → List Char)
    (format_css format_js : Bool) (indentFn : List Char → List Char)
    (c : Char) (rest : List Char) :
    formatter compress expand cleanWS singleQ condense fcss fjs
        format_css format_js indentFn (c :: rest)
      = .error typeErrorIndentHtml := by
  unfold formatter
  rw [if_neg (by simp)]
  rw [indent_html_call_does_not_bind]
  simp


/-! ## `H025.py`: orphan tag detection (claim C9) -/

/-- One tag occurrence from the tag scan of `run` (H025.py, line 31):
`close` is whether `match.group(1)` starts with `/`, `name` is
`match.group(2)`. -/
structure HTag where
  close : Bool
  name : List Char
deriving DecidableEq

def dummyTag : HTag := ⟨true, []⟩

/-- Removing the first entry with the given name from the open list (the
`for i, tag in enumerate(...)` / `open_tags.pop(i)` / `break` loop at
H025.py, lines 45–48): `none` when no entry matches. -/
def removeFirstName (n : List Char) : List HTag → Option (List HTag)
  | [] => none
  | t :: ts =>
    if t.name = n then some ts
    else (removeFirstName n ts).map (t :: ·)

/-- One step of the scan of `run` (H025.py, lines 38–51): tags matching
the always-self-closing configuration are skipped; an open tag is inserted
at the front of the open list (`open_tags.insert(0, match)`); a close tag
removes the first same-named entry of the open list, and is recorded as an
orphan when none is pending.  The state is `(open_tags, orphan_tags)`. -/
def h025Step (selfClosing : List Char → Bool) (st : List HTag × List HTag)
    (t : HTag) : List HTag × List HTag :=
  if selfClosing t.name then st
  else if t.close = false then (t :: st.1, st.2)
  else
    match removeFirstName t.name st.1 with
    | some l => (l, st.2)
    | none => (st.1, st.2 ++ [t])

/-- The whole scan over the document's tag occurrences. -/
def h025Scan (selfClosing : List Char → Bool) (events : List HTag) :
    List HTag × List HTag :=
  events.foldl (h025Step selfClosing) ([], [])

/-- The reporting loop of `run` (H025.py, lines 53–67): one finding per
tag remaining in the open list and per orphan close, except occurrences
suppressed by the ignore filters (`overlaps_ignored_block`,
`inside_ignored_rule`, `inside_ignored_linter_block`; helpers.py, outside
the given sources), abstracted as `suppressed`. -/
def h025Findings (selfClosing : List Char → Bool) (suppressed : HTag → Bool)
    (events : List HTag) : List HTag :=
  ((h025Scan selfClosing events).1 ++ (h025Scan selfClosing events).2).filter
    (fun t => suppressed t = false)

/-- The number of entries with the given name in a tag list. -/
def cntName (n : List Char) (l : List HTag) : Nat :=
  (l.filter (fun t => t.name = n)).length

theorem removeFirstName_none {n : List Char} {l : List HTag}
    (h : cntName n l = 0) : removeFirstName n l = none := by
  induction l with
  | nil => rfl
  | cons t ts ih =>
    unfold cntName at h ih
    unfold removeFirstName
    rw [List.filter_cons] at h
    split at h
    · simp at h
    · next hne =>
      rw [if_neg (by simpa using hne)]
      rw [ih h]
      rfl

theorem removeFirstName_some {n : List Char} {l : List HTag}
    (h : 0 < cntName n l) :
    ∃ l', removeFirstName n l = some l'
      ∧ cntName n l' = cntName n l - 1
      ∧ ∀ m, m ≠ n → cntName m l' = cntName m l := by
  induction l with
  | nil => simp [cntName] at h
  | cons t ts ih =>
    by_cases ht : t.name = n
    · refine ⟨ts, ?_, ?_, ?_⟩
      · unfold removeFirstName
        rw [if_pos ht]
      · unfold cntName
        rw [List.filter_cons, if_pos (by simpa using ht)]
        simp
      · intro m hm
        unfold cntName
        rw [List.filter_cons, if_neg (by simp; rw [ht]; exact fun he => hm he.symm)]
    · have hts : 0 < cntName n ts := by
        unfold cntName at h ⊢
        rw [List.filter_cons, if_neg (by simpa using ht)] at h
        exact h
      obtain ⟨l', h1, h2, h3⟩ := ih hts
      refine ⟨t :: l', ?_, ?_, ?_⟩
      · unfold removeFirstName
        rw [if_neg ht, h1]
        rfl
      · unfold cntName at h2 ⊢
        rw [List.filter_cons, List.filter_cons]
        rw [if_neg (by simpa using ht), if_neg (by simpa using ht)]
        unfold cntName at h
        rw [List.filter_cons, if_neg (by simpa using ht)] at h
        exact h2
      · intro m hm
        unfold cntName at h3 ⊢
        rw [List.filter_cons, List.filter_cons]
        split
        · simpa using congrArg Nat.succ (h3 m hm)
        · exact h3 m hm


/-- Index `i` of the event list holds an unskipped open tag named `n`. -/
def isOpenN (selfClosing : List Char → Bool) (events : List HTag)
    (n : List Char) (i : Nat) : Bool :=
  selfClosing (events.getD i dummyTag).name = false
  ∧ (events.getD i dummyTag).close = false
  ∧ (events.getD i dummyTag).name = n

/-- Index `i` of the event list holds an unskipped close tag named `n`. -/
def isCloseN (selfClosing : List Char → Bool) (events : List HTag)
    (n : List Char) (i : Nat) : Bool :=
  selfClosing (events.getD i dummyTag).name = false
  ∧ (events.getD i dummyTag).close = true
  ∧ (events.getD i dummyTag).name = n

/-- Unskipped open tags named `n` among the first `p` events. -/
def oCount (selfClosing : List Char → Bool) (events : List HTag)
    (n : List Char) (p : Nat) : Nat :=
  ((Finset.range p).filter
    (fun i => isOpenN selfClosing events n i = true)).card

/-- Unskipped close tags named `n` among the first `p` events. -/
def cCount (selfClosing : List Char → Bool) (events : List HTag)
    (n : List Char) (p : Nat) : Nat :=
  ((Finset.range p).filter
    (fun i => isCloseN selfClosing events n i = true)).card

/-- A pairing entry `(o, c)` pairs a close tag at `c` with a distinct
earlier same-named open tag at `o`. -/
def pairOk (selfClosing : List Char → Bool) (events : List HTag)
    (q : Nat × Nat) : Bool :=
  q.1 < q.2 ∧ q.2 < events.length
  ∧ selfClosing (events.getD q.1 dummyTag).name = false
  ∧ (events.getD q.1 dummyTag).close = false
  ∧ (events.getD q.2 dummyTag).close = true
  ∧ (events.getD q.1 dummyTag).name = (events.getD q.2 dummyTag).name

/-- A valid pairing: each entry pairs a close with a distinct earlier
same-named open; opens and closes are used at most once. -/
def ValidPairing (selfClosing : List Char → Bool) (events : List HTag)
    (pairs : List (Nat × Nat)) : Bool :=
  pairs.all (pairOk selfClosing events)
  ∧ (pairs.map Prod.fst).Nodup
  ∧ (pairs.map Prod.snd).Nodup

/-- Every unskipped close tag is paired. -/
def CoversCloses (selfClosing : List Char → Bool) (events : List HTag)
    (pairs : List (Nat × Nat)) : Bool :=
  (List.range events.length).all (fun i =>
    ((events.getD i dummyTag).close = true
        ∧ selfClosing (events.getD i dummyTag).name = false) →
      (pairs.map Prod.snd).contains i)

/-- Every unskipped open tag is paired. -/
def CoversOpens (selfClosing : List Char → Bool) (events : List HTag)
    (pairs : List (Nat × Nat)) : Bool :=
  (List.range events.length).all (fun i =>
    ((events.getD i dummyTag).close = false
        ∧ selfClosing (events.getD i dummyTag).name = false) →
      (pairs.map Prod.fst).contains i)

/-- The open index paired with close index `i`. -/
def pairedOpen (pairs : List (Nat × Nat)) (i : Nat) : Nat :=
  match pairs.find? (fun q => q.2 == i) with
  | some q => q.1
  | none => 0

/-- The close index paired with open index `o`. -/
def pairedClose (pairs : List (Nat × Nat)) (o : Nat) : Nat :=
  match pairs.find? (fun q => q.1 == o) with
  | some q => q.2
  | none => 0

theorem pairedOpen_spec {pairs : List (Nat × Nat)} {i : Nat}
    (h : (pairs.map Prod.snd).contains i = true) :
    ∃ q ∈ pairs, q.2 = i ∧ pairedOpen pairs i = q.1 := by
  have hmem : i ∈ pairs.map Prod.snd := by simpa using h
  obtain ⟨q0, hq0, hq0i⟩ := List.mem_map.mp hmem
  unfold pairedOpen
  rcases hfind : pairs.find? (fun q => q.2 == i) with _ | q
  · exfalso
    have := List.find?_eq_none.mp hfind q0 hq0
    simp [hq0i] at this
  · have h1 := List.find?_some hfind
    have h2 := List.mem_of_find?_eq_some hfind
    simp at h1
    refine ⟨q, h2, h1, ?_⟩
    rw [hfind]

theorem pairedClose_spec {pairs : List (Nat × Nat)} {o : Nat}
    (h : (pairs.map Prod.fst).contains o = true) :
    ∃ q ∈ pairs, q.1 = o ∧ pairedClose pairs o = q.2 := by
  have hmem : o ∈ pairs.map Prod.fst := by simpa using h
  obtain ⟨q0, hq0, hq0o⟩ := List.mem_map.mp hmem
  unfold pairedClose
  rcases hfind : pairs.find? (fun q => q.1 == o) with _ | q
  · exfalso
    have := List.find?_eq_none.mp hfind q0 hq0
    simp [hq0o] at this
  · have h1 := List.find?_some hfind
    have h2 := List.mem_of_find?_eq_some hfind
    simp at h1
    refine ⟨q, h2, h1, ?_⟩
    rw [hfind]


/-- A valid pairing that covers all closes bounds the closes of every name
by the opens of that name, on every prefix of the document. -/
theorem closes_le_opens (selfClosing : List Char → Bool) (events : List HTag)
    (pairs : List (Nat × Nat))
    (hvalid : ValidPairing selfClosing events pairs = true)
    (hcov : CoversCloses selfClosing events pairs = true)
    (n : List Char) (p : Nat) (hp : p ≤ events.length) :
    cCount selfClosing events n p ≤ oCount selfClosing events n p := by
  unfold ValidPairing at hvalid
  simp only [Bool.and_eq_true, decide_eq_true_eq] at hvalid
  obtain ⟨hall, hfstnodup, hsndnodup⟩ := hvalid
  unfold CoversCloses at hcov
  simp only [List.all_eq_true, decide_eq_true_eq] at hcov
  unfold cCount oCount
  apply Finset.card_le_card_of_injOn (pairedOpen pairs)
  · intro i hi
    simp only [Finset.mem_filter, Finset.mem_range] at hi ⊢
    obtain ⟨hip, hicl⟩ := hi
    unfold isCloseN at hicl
    simp only [Bool.and_eq_true, decide_eq_true_eq] at hicl
    obtain ⟨hsc, hcl, hnm⟩ := hicl
    have hcontains : (pairs.map Prod.snd).contains i = true := by
      exact hcov i (by simp; omega) ⟨hcl, hsc⟩
    obtain ⟨q, hq, hq2, hqo⟩ := pairedOpen_spec hcontains
    have hok := List.all_eq_true.mp hall q hq
    unfold pairOk at hok
    simp only [Bool.and_eq_true, decide_eq_true_eq] at hok
    obtain ⟨ho1, ho2, ho3, ho4, _, ho6⟩ := hok
    rw [hqo]
    constructor
    · omega
    · unfold isOpenN
      simp only [Bool.and_eq_true, decide_eq_true_eq]
      rw [hq2] at ho6
      exact ⟨by rw [ho6, hnm] at ho3 ⊢; exact ho3, ho4, by rw [ho6, hnm]⟩
  · intro i hi j hj hij
    simp only [Finset.coe_filter, Set.mem_setOf_eq, Finset.mem_range] at hi hj
    obtain ⟨hip, hicl⟩ := hi
    obtain ⟨hjp, hjcl⟩ := hj
    unfold isCloseN at hicl hjcl
    simp only [Bool.and_eq_true, decide_eq_true_eq] at hicl hjcl
    have hci : (pairs.map Prod.snd).contains i = true :=
      hcov i (by simp; omega) ⟨hicl.2.1, hicl.1⟩
    have hcj : (pairs.map Prod.snd).contains j = true :=
      hcov j (by simp; omega) ⟨hjcl.2.1, hjcl.1⟩
    obtain ⟨qi, hqi, hqi2, hqio⟩ := pairedOpen_spec hci
    obtain ⟨qj, hqj, hqj2, hqjo⟩ := pairedOpen_spec hcj
    rw [hqio, hqjo] at hij
    have : qi = qj := by
      rcases qi with ⟨a, b⟩
      rcases qj with ⟨a2, b2⟩
      simp only at hij
      subst hij
      rw [mem_fst_unique hfstnodup hqi hqj]
    rw [← hqi2, ← hqj2, this]

/-- A valid pairing that covers all opens bounds the opens of every name
by the closes of that name, over the whole document. -/
theorem opens_le_closes (selfClosing : List Char → Bool) (events : List HTag)
    (pairs : List (Nat × Nat))
    (hvalid : ValidPairing selfClosing events pairs = true)
    (hcov : CoversOpens selfClosing events pairs = true)
    (n : List Char) :
    oCount selfClosing events n events.length
      ≤ cCount selfClosing events n events.length := by
  unfold ValidPairing at hvalid
  simp only [Bool.and_eq_true, decide_eq_true_eq] at hvalid
  obtain ⟨hall, hfstnodup, hsndnodup⟩ := hvalid
  unfold CoversOpens at hcov
  simp only [List.all_eq_true, decide_eq_true_eq] at hcov
  unfold cCount oCount
  apply Finset.card_le_card_of_injOn (pairedClose pairs)
  · intro i hi
    simp only [Finset.mem_filter, Finset.mem_range] at hi ⊢
    obtain ⟨hip, hicl⟩ := hi
    unfold isOpenN at hicl
    simp only [Bool.and_eq_true, decide_eq_true_eq] at hicl
    obtain ⟨hsc, hcl, hnm⟩ := hicl
    have hcontains : (pairs.map Prod.fst).contains i = true :=
      hcov i (by simp; omega) ⟨hcl, hsc⟩
    obtain ⟨q, hq, hq1, hqc⟩ := pairedClose_spec hcontains
    have hok := List.all_eq_true.mp hall q hq
    unfold pairOk at hok
    simp only [Bool.and_eq_true, decide_eq_true_eq] at hok
    obtain ⟨ho1, ho2, ho3, ho4, ho5, ho6⟩ := hok
    rw [hqc]
    constructor
    · omega
    · unfold isCloseN
      simp only [Bool.and_eq_true, decide_eq_true_eq]
      rw [hq1] at ho6
      refine ⟨?_, ho5, by rw [← ho6, hnm]⟩
      rw [← ho6, hnm]
      rw [hnm] at hsc
      exact hsc
  · intro i hi j hj hij
    simp only [Finset.coe_filter, Set.mem_setOf_eq, Finset.mem_range] at hi hj
    obtain ⟨hip, hicl⟩ := hi
    obtain ⟨hjp, hjcl⟩ := hj
    unfold isOpenN at hicl hjcl
    simp only [Bool.and_eq_true, decide_eq_true_eq] at hicl hjcl
    have hci : (pairs.map Prod.fst).contains i = true :=
      hcov i (by simp; omega) ⟨hicl.2.1, hicl.1⟩
    have hcj : (pairs.map Prod.fst).contains j = true :=
      hcov j (by simp; omega) ⟨hjcl.2.1, hjcl.1⟩
    obtain ⟨qi, hqi, hqi1, hqic⟩ := pairedClose_spec hci
    obtain ⟨qj, hqj, hqj1, hqjc⟩ := pairedClose_spec hcj
    rw [hqic, hqjc] at hij
    have : qi = qj := by
      rcases qi with ⟨a, b⟩
      rcases qj with ⟨a2, b2⟩
      simp only at hij
      subst hij
      rw [mem_snd_unique hsndnodup hqi hqj]
    rw [← hqi1, ← hqj1, this]


theorem filter_range_succ_card (P : Nat → Bool) (p : Nat) :
    ((Finset.range (p + 1)).filter (fun i => P i = true)).card
      = ((Finset.range p).filter (fun i => P i = true)).card
        + if P p = true then 1 else 0 := by
  rw [Finset.range_succ, Finset.filter_insert]
  split_ifs
  · rw [Finset.card_insert_of_not_mem (by simp)]
  · simp

theorem oCount_succ (sc : List Char → Bool) (events : List HTag)
    (n : List Char) (p : Nat) :
    oCount sc events n (p + 1)
      = oCount sc events n p + if isOpenN sc events n p = true then 1 else 0 := by
  unfold oCount
  exact filter_range_succ_card _ p

theorem cCount_succ (sc : List Char → Bool) (events : List HTag)
    (n : List Char) (p : Nat) :
    cCount sc events n (p + 1)
      = cCount sc events n p + if isCloseN sc events n p = true then 1 else 0 := by
  unfold cCount
  exact filter_range_succ_card _ p

theorem take_succ_getD (l : List HTag) (p : Nat) (hp : p < l.length) :
    l.take (p + 1) = l.take p ++ [l.getD p dummyTag] := by
  rw [List.take_succ]
  congr 1
  rw [List.getElem?_eq_getElem hp]
  rw [List.getD_eq_getElem l dummyTag hp]
  rfl

/-- Under the prefix bound (closes never ahead of opens, per name), the
scan never records an orphan, and the open list holds exactly the
outstanding opens of every name. -/
theorem scan_prefix_invariant (selfClosing : List Char → Bool)
    (events : List HTag)
    (hbound : ∀ n p, p ≤ events.length →
      cCount selfClosing events n p ≤ oCount selfClosing events n p) :
    ∀ p, p ≤ events.length →
      (h025Scan selfClosing (events.take p)).2 = []
      ∧ ∀ n, cntName n (h025Scan selfClosing (events.take p)).1
          = oCount selfClosing events n p - cCount selfClosing events n p := by
  intro p
  induction p with
  | zero =>
    intro _
    refine ⟨rfl, ?_⟩
    intro n
    simp [h025Scan, cntName, oCount, cCount]
  | succ p ih =>
    intro hp1
    have hp : p < events.length := by omega
    obtain ⟨horph, hcnt⟩ := ih (by omega)
    have htake : events.take (p + 1) = events.take p ++ [events.getD p dummyTag] :=
      take_succ_getD events p hp
    have hscan : h025Scan selfClosing (events.take (p + 1))
        = h025Step selfClosing (h025Scan selfClosing (events.take p))
            (events.getD p dummyTag) := by
      rw [htake]
      unfold h025Scan
      rw [List.foldl_append]
      rfl
    rw [hscan]
    unfold h025Step
    by_cases hsc : selfClosing (events.getD p dummyTag).name = true
    · rw [if_pos hsc]
      refine ⟨horph, ?_⟩
      intro n
      rw [oCount_succ, cCount_succ]
      have hoF : isOpenN selfClosing events n p = false := by
        unfold isOpenN
        exact decide_eq_false (fun hcon =>
          Bool.false_ne_true (hcon.1.symm.trans hsc))
      have hcF : isCloseN selfClosing events n p = false := by
        unfold isCloseN
        exact decide_eq_false (fun hcon =>
          Bool.false_ne_true (hcon.1.symm.trans hsc))
      rw [hoF, hcF]
      try simp only [reduceIte]
      simpa using hcnt n
    · have hscF : selfClosing (events.getD p dummyTag).name = false := by
        simpa using hsc
      rw [if_neg hsc]
      by_cases hcl : (events.getD p dummyTag).close = false
      · rw [if_pos hcl]
        refine ⟨horph, ?_⟩
        intro n
        rw [oCount_succ, cCount_succ]
        have hcF : isCloseN selfClosing events n p = false := by
          unfold isCloseN
          exact decide_eq_false (fun hcon => by
            rw [hcon.2.1] at hcl
            exact Bool.noConfusion hcl)
        rw [hcF, if_neg Bool.false_ne_true]
        have hC := hbound n p (by omega)
        have hcons : cntName n ((events.getD p dummyTag)
            :: (h025Scan selfClosing (events.take p)).1)
            = cntName n (h025Scan selfClosing (events.take p)).1
              + (if (events.getD p dummyTag).name = n then 1 else 0) := by
          unfold cntName
          rw [List.filter_cons]
          by_cases hnn : (events.getD p dummyTag).name = n
          · rw [if_pos (decide_eq_true hnn), if_pos hnn]
            simp
          · rw [if_neg (fun hb => hnn (of_decide_eq_true hb)), if_neg hnn]
            simp
        dsimp only
        rw [hcons, hcnt n]
        by_cases hn : (events.getD p dummyTag).name = n
        · have hoT : isOpenN selfClosing events n p = true := by
            unfold isOpenN
            exact decide_eq_true ⟨hscF, hcl, hn⟩
          rw [hoT, if_pos rfl, if_pos hn]
          omega
        · have hoF : isOpenN selfClosing events n p = false := by
            unfold isOpenN
            exact decide_eq_false (fun hcon => hn hcon.2.2)
          rw [hoF, if_neg Bool.false_ne_true, if_neg hn]
          omega
      · rw [if_neg hcl]
        have hclT : (events.getD p dummyTag).close = true := by
          simpa using hcl
        have hisC : isCloseN selfClosing events
            ((events.getD p dummyTag).name) p = true := by
          unfold isCloseN
          exact decide_eq_true ⟨hscF, hclT, rfl⟩
        have hC1 := hbound ((events.getD p dummyTag).name) (p + 1) (by omega)
        rw [oCount_succ, cCount_succ, hisC, if_pos rfl] at hC1
        have hoFm : isOpenN selfClosing events
            ((events.getD p dummyTag).name) p = false := by
          unfold isOpenN
          exact decide_eq_false (fun hcon => by
            rw [hcon.2.1] at hclT
            exact Bool.noConfusion hclT)
        rw [hoFm, if_neg Bool.false_ne_true] at hC1
        have hpos : 0 < cntName ((events.getD p dummyTag).name)
            (h025Scan selfClosing (events.take p)).1 := by
          rw [hcnt]
          omega
        obtain ⟨l', hrm, hdec, hoth⟩ := removeFirstName_some hpos
        rw [hrm]
        refine ⟨horph, ?_⟩
        intro n
        rw [oCount_succ, cCount_succ]
        have hoFn : isOpenN selfClosing events n p = false := by
          unfold isOpenN
          exact decide_eq_false (fun hcon => by
            rw [hcon.2.1] at hclT
            exact Bool.noConfusion hclT)
        rw [hoFn, if_neg Bool.false_ne_true]
        by_cases hn : (events.getD p dummyTag).name = n
        · have hcT : isCloseN selfClosing events n p = true := by
            unfold isCloseN
            exact decide_eq_true ⟨hscF, hclT, hn⟩
          rw [hcT, if_pos rfl]
          dsimp only
          rw [← hn]
          rw [hdec, hcnt]
          omega
        · have hcFn : isCloseN selfClosing events n p = false := by
            unfold isCloseN
            exact decide_eq_false (fun hcon => hn hcon.2.2)
          rw [hcFn, if_neg Bool.false_ne_true]
          dsimp only
          rw [hoth n (fun he => hn he.symm), hcnt]
          simp


/-- C9 (counterexample to the wording as frozen): the claim concludes that
a document in which every CLOSE tag can be paired by name with a distinct
earlier open tag yields no findings; but with events
open d, open d, close d and the pairing [(1, 2)] — a valid pairing that
covers every close — the scan still leaves one entry in the open list, so
`run` reports an unclosed-open finding and the findings list is not empty. -/
theorem C9_counterexample :
    ValidPairing (fun _ => false)
        [⟨false, ['d']⟩, ⟨false, ['d']⟩, ⟨true, ['d']⟩] [(1, 2)] = true
      ∧ CoversCloses (fun _ => false)
        [⟨false, ['d']⟩, ⟨false, ['d']⟩, ⟨true, ['d']⟩] [(1, 2)] = true
      ∧ h025Findings (fun _ => false) (fun _ => false)
        [⟨false, ['d']⟩, ⟨false, ['d']⟩, ⟨true, ['d']⟩] ≠ [] :=
  ⟨by decide, by decide, by decide⟩

/-- C9 (amended): when the document admits a PERFECT matching — a valid
pairing (each entry pairs a close with a distinct earlier same-named open,
opens and closes used at most once) that covers every unskipped close AND
every unskipped open — the scan of `run` (H025.py, lines 38–51) records no
orphan close and empties the open list, so the reporting loop produces no
findings, for any suppression configuration; in particular non-LIFO
interleavings are accepted. -/
theorem C9_perfect_matching_no_findings (selfClosing : List Char → Bool)
    (suppressed : HTag → Bool) (events : List HTag)
    (pairs : List (Nat × Nat))
    (hvalid : ValidPairing selfClosing events pairs = true)
    (hcc : CoversCloses selfClosing events pairs = true)
    (hco : CoversOpens selfClosing events pairs = true) :
    h025Findings selfClosing suppressed events = [] := by
  have hbound : ∀ n p, p ≤ events.length →
      cCount selfClosing events n p ≤ oCount selfClosing events n p :=
    fun n p hp => closes_le_opens selfClosing events pairs hvalid hcc n p hp
  obtain ⟨horph, hcnt⟩ :=
    scan_prefix_invariant selfClosing events hbound events.length (le_refl _)
  rw [List.take_length] at horph hcnt
  have hopens : (h025Scan selfClosing events).1 = [] := by
    cases hop : (h025Scan selfClosing events).1 with
    | nil => rfl
    | cons t ts =>
      exfalso
      have hcz := hcnt t.name
      rw [hop] at hcz
      have hle := opens_le_closes selfClosing events pairs hvalid hco t.name
      have hge := hbound t.name events.length (le_refl _)
      have hzero : cntName t.name (t :: ts) = 0 := by omega
      unfold cntName at hzero
      rw [List.filter_cons, if_pos (by simp)] at hzero
      simp at hzero
  unfold h025Findings
  rw [hopens, horph]
  rfl

/-- Witness: a non-LIFO perfect matching (open a, open b, close a, close b
with pairs (0, 2) and (1, 3)) yields no findings. -/
theorem C9_perfect_matching_no_findings_witness :
    h025Findings (fun _ => false) (fun _ => false)
      [⟨false, ['a']⟩, ⟨false, ['b']⟩, ⟨true, ['a']⟩, ⟨true, ['b']⟩] = [] :=
  C9_perfect_matching_no_findings (fun _ => false) (fun _ => false)
    [⟨false, ['a']⟩, ⟨false, ['b']⟩, ⟨true, ['a']⟩, ⟨true, ['b']⟩]
    [(0, 2), (1, 3)] (by decide) (by decide) (by decide)


/-! ## Claim C10: multi-attribute lines in `clean_inline_style_to_css_class` -/

theorem qrun_eq_qpass (pat repl : List Char) (st : QState) (xs : List Char) :
    qrun pat repl st xs
      = ((qpass pat repl st xs).2.1,
         (qpass pat repl st xs).2.2 ++ qflush pat (qpass pat repl st xs).1) := by
  induction xs generalizing st with
  | nil => rfl
  | cons c cs ih =>
    unfold qrun qpass
    dsimp only
    rw [ih]
    cases hs : (qstep pat repl st c).2.2 <;> dsimp only <;> rw [List.append_assoc]

theorem qpass_skip_style (repl : List Char) (c : Char) (hc : c ≠ 's')
    (rest : List Char) :
    qpass stylePat repl (.outside 0) (c :: rest)
      = ((qpass stylePat repl (.outside 0) rest).1,
         (qpass stylePat repl (.outside 0) rest).2.1,
         c :: (qpass stylePat repl (.outside 0) rest).2.2) := by
  have h1 : ¬ (stylePat.get? 0 = some c) := by
    simp only [stylePat, List.get?, Option.some.injEq]
    exact fun he => hc he.symm
  have h2 : ¬ (stylePat.head? = some c) := by
    simp only [stylePat, List.head?, Option.some.injEq]
    exact fun he => hc he.symm
  have hstep : qstep stylePat repl (.outside 0) c = (.outside 0, [c], none) := by
    unfold qstep
    dsimp only
    rw [if_neg h1, if_neg h2]
    rfl
  conv_lhs => rw [qpass]
  rw [hstep]
  rfl

theorem qpass_style_classlit (repl rest : List Char) :
    qpass stylePat repl (.outside 0) ('s' :: 's' :: '=' :: rest)
      = ((qpass stylePat repl (.outside 0) rest).1,
         (qpass stylePat repl (.outside 0) rest).2.1,
         's' :: 's' :: '=' :: (qpass stylePat repl (.outside 0) rest).2.2) := rfl

theorem qpass_style_open (repl rest : List Char) :
    qpass stylePat repl (.outside 0)
        ('s' :: 't' :: 'y' :: 'l' :: 'e' :: '=' :: '"' :: rest)
      = qpass stylePat repl (.capture []) rest := rfl

theorem qpass_capture_close (pat repl : List Char) (s : List Char) :
    ∀ acc rest, (∀ c ∈ s, c ≠ '"') →
    qpass pat repl (.capture acc) (s ++ ('"' :: rest))
      = ((qpass pat repl (.outside 0) rest).1,
         (acc.reverse ++ s) :: (qpass pat repl (.outside 0) rest).2.1,
         repl ++ (qpass pat repl (.outside 0) rest).2.2) := by
  induction s with
  | nil =>
    intro acc rest h
    show qpass pat repl (.capture acc) ('"' :: rest) = _
    have hstep : qstep pat repl (.capture acc) '"'
        = (.outside 0, repl, some acc.reverse) := by
      unfold qstep
      dsimp only
      rw [if_pos rfl]
    conv_lhs => rw [qpass]
    rw [hstep]
    simp
  | cons c cs ih =>
    intro acc rest h
    rw [List.cons_append]
    have hstep : qstep pat repl (.capture acc) c
        = (.capture (c :: acc), [], none) := by
      unfold qstep
      dsimp only
      rw [if_neg (h c (by simp))]
    conv_lhs => rw [qpass]
    rw [hstep]
    dsimp only
    rw [ih (c :: acc) rest (fun d hd => h d (by simp [hd]))]
    simp

theorem qpass_skip_class (repl : List Char) (c : Char) (hc : c ≠ 'c')
    (rest : List Char) :
    qpass classPat repl (.outside 0) (c :: rest)
      = ((qpass classPat repl (.outside 0) rest).1,
         (qpass classPat repl (.outside 0) rest).2.1,
         c :: (qpass classPat repl (.outside 0) rest).2.2) := by
  have h1 : ¬ (classPat.get? 0 = some c) := by
    simp only [classPat, List.get?, Option.some.injEq]
    exact fun he => hc he.symm
  have h2 : ¬ (classPat.head? = some c) := by
    simp only [classPat, List.head?, Option.some.injEq]
    exact fun he => hc he.symm
  have hstep : qstep classPat repl (.outside 0) c = (.outside 0, [c], none) := by
    unfold qstep
    dsimp only
    rw [if_neg h1, if_neg h2]
    rfl
  conv_lhs => rw [qpass]
  rw [hstep]
  rfl

theorem qpass_seg_style (repl xs : List Char) (h : ∀ c ∈ xs, c ≠ 's')
    (rest : List Char) :
    qpass stylePat repl (.outside 0) (xs ++ rest)
      = ((qpass stylePat repl (.outside 0) rest).1,
         (qpass stylePat repl (.outside 0) rest).2.1,
         xs ++ (qpass stylePat repl (.outside 0) rest).2.2) := by
  induction xs with
  | nil => simp
  | cons c cs ih =>
    rw [List.cons_append,
        qpass_skip_style repl c (h c (by simp)) (cs ++ rest),
        ih (fun d hd => h d (by simp [hd]))]
    rfl

theorem qpass_seg_class (repl xs : List Char) (h : ∀ c ∈ xs, c ≠ 'c')
    (rest : List Char) :
    qpass classPat repl (.outside 0) (xs ++ rest)
      = ((qpass classPat repl (.outside 0) rest).1,
         (qpass classPat repl (.outside 0) rest).2.1,
         xs ++ (qpass classPat repl (.outside 0) rest).2.2) := by
  induction xs with
  | nil => simp
  | cons c cs ih =>
    rw [List.cons_append,
        qpass_skip_class repl c (h c (by simp)) (cs ++ rest),
        ih (fun d hd => h d (by simp [hd]))]
    rfl

theorem qpass_class_open (repl rest : List Char) :
    qpass classPat repl (.outside 0)
        ('c' :: 'l' :: 'a' :: 's' :: 's' :: '=' :: '"' :: rest)
      = qpass classPat repl (.capture []) rest := rfl

theorem qpass_nil (pat repl : List Char) (st : QState) :
    qpass pat repl st [] = (st, [], []) := rfl

def c10Line (c1 s1 c2 s2 : List Char) : List Char :=
  '<' :: 'd' :: 'i' :: 'v' :: ' ' :: 'c' :: 'l' :: 'a' :: 's' :: 's' :: '=' :: '"' ::
    (c1 ++ ('"' :: ' ' :: 's' :: 't' :: 'y' :: 'l' :: 'e' :: '=' :: '"' ::
      (s1 ++ ('"' :: '>' :: '<' :: 'p' :: ' ' :: 'c' :: 'l' :: 'a' :: 's' :: 's' :: '=' :: '"' ::
        (c2 ++ ('"' :: ' ' :: 's' :: 't' :: 'y' :: 'l' :: 'e' :: '=' :: '"' ::
          (s2 ++ ('"' :: '>' :: 'x' :: '<' :: '/' :: 'p' :: '>' :: []))))))))

def c10Html1 (c1 c2 : List Char) : List Char :=
  '<' :: 'd' :: 'i' :: 'v' :: ' ' :: 'c' :: 'l' :: 'a' :: 's' :: 's' :: '=' :: '"' ::
    (c1 ++ ('"' :: ' ' :: '>' :: '<' :: 'p' :: ' ' :: 'c' :: 'l' :: 'a' :: 's' :: 's' :: '=' :: '"' ::
      (c2 ++ ('"' :: ' ' :: '>' :: 'x' :: '<' :: '/' :: 'p' :: '>' :: []))))

theorem c10_style_scan (c1 s1 c2 s2 : List Char)
    (hc1 : ∀ ch ∈ c1, ch ≠ 's') (hc2 : ∀ ch ∈ c2, ch ≠ 's')
    (hs1 : ∀ ch ∈ s1, ch ≠ '"') (hs2 : ∀ ch ∈ s2, ch ≠ '"') :
    qpass stylePat [] (.outside 0) (c10Line c1 s1 c2 s2)
      = (.outside 0, [s1, s2], c10Html1 c1 c2) := by
  unfold c10Line c10Html1
  simp only [qpass_skip_style [] '<' (by decide),
      qpass_skip_style [] 'd' (by decide),
      qpass_skip_style [] 'i' (by decide),
      qpass_skip_style [] 'v' (by decide),
      qpass_skip_style [] ' ' (by decide),
      qpass_skip_style [] 'c' (by decide),
      qpass_skip_style [] 'l' (by decide),
      qpass_skip_style [] 'a' (by decide),
      qpass_style_classlit,
      qpass_skip_style [] '"' (by decide),
      qpass_seg_style [] c1 hc1,
      qpass_seg_style [] c2 hc2,
      qpass_style_open,
      fun acc rest => qpass_capture_close stylePat [] s1 acc rest hs1,
      fun acc rest => qpass_capture_close stylePat [] s2 acc rest hs2,
      qpass_skip_style [] '>' (by decide),
      qpass_skip_style [] 'x' (by decide),
      qpass_skip_style [] 'p' (by decide),
      qpass_skip_style [] '/' (by decide),
      qpass_nil,
      List.reverse_nil, List.nil_append, List.append_nil]

theorem c10_class_scan_finds (c1 s1 c2 s2 : List Char)
    (hc1 : ∀ ch ∈ c1, ch ≠ '"') (hc2 : ∀ ch ∈ c2, ch ≠ '"')
    (hs1 : ∀ ch ∈ s1, ch ≠ 'c') (hs2 : ∀ ch ∈ s2, ch ≠ 'c') :
    (qpass classPat [] (.outside 0) (c10Line c1 s1 c2 s2)).2.1 = [c1, c2] := by
  unfold c10Line
  simp only [qpass_skip_class [] '<' (by decide),
      qpass_skip_class [] 'd' (by decide),
      qpass_skip_class [] 'i' (by decide),
      qpass_skip_class [] 'v' (by decide),
      qpass_skip_class [] ' ' (by decide),
      qpass_class_open,
      fun acc rest => qpass_capture_close classPat [] c1 acc rest hc1,
      fun acc rest => qpass_capture_close classPat [] c2 acc rest hc2,
      qpass_skip_class [] 's' (by decide),
      qpass_skip_class [] 't' (by decide),
      qpass_skip_class [] 'y' (by decide),
      qpass_skip_class [] 'l' (by decide),
      qpass_skip_class [] 'e' (by decide),
      qpass_skip_class [] '=' (by decide),
      qpass_skip_class [] '"' (by decide),
      qpass_seg_class [] s1 hs1,
      qpass_seg_class [] s2 hs2,
      qpass_skip_class [] '>' (by decide),
      qpass_skip_class [] 'x' (by decide),
      qpass_skip_class [] 'p' (by decide),
      qpass_skip_class [] '/' (by decide),
      qpass_nil,
      List.reverse_nil, List.nil_append, List.append_nil]

theorem c10_class_scan_html1 (N c1 c2 : List Char)
    (hc1 : ∀ ch ∈ c1, ch ≠ '"') (hc2 : ∀ ch ∈ c2, ch ≠ '"') :
    qpass classPat N (.outside 0) (c10Html1 c1 c2)
      = (.outside 0, [c1, c2],
         '<' :: 'd' :: 'i' :: 'v' :: ' ' ::
           (N ++ (' ' :: '>' :: '<' :: 'p' :: ' ' ::
             (N ++ (' ' :: '>' :: 'x' :: '<' :: '/' :: 'p' :: '>' :: []))))) := by
  unfold c10Html1
  simp only [qpass_skip_class N '<' (by decide),
      qpass_skip_class N 'd' (by decide),
      qpass_skip_class N 'i' (by decide),
      qpass_skip_class N 'v' (by decide),
      qpass_skip_class N ' ' (by decide),
      qpass_class_open,
      fun acc rest => qpass_capture_close classPat N c1 acc rest hc1,
      fun acc rest => qpass_capture_close classPat N c2 acc rest hc2,
      qpass_skip_class N '>' (by decide),
      qpass_skip_class N 'x' (by decide),
      qpass_skip_class N 'p' (by decide),
      qpass_skip_class N '/' (by decide),
      qpass_nil,
      List.reverse_nil, List.nil_append, List.append_nil]


/-- The replaced line produced for the two-tag family: both class
attributes rewritten to the same new class string, both style attributes
removed. -/
def c10Out (N : List Char) : List Char :=
  '<' :: 'd' :: 'i' :: 'v' :: ' ' ::
    (N ++ (' ' :: '>' :: '<' :: 'p' :: ' ' ::
      (N ++ (' ' :: '>' :: 'x' :: '<' :: '/' :: 'p' :: '>' :: []))))

theorem c10_reFind_style (c1 s1 c2 s2 : List Char)
    (hc1 : ∀ ch ∈ c1, ch ≠ 's') (hc2 : ∀ ch ∈ c2, ch ≠ 's')
    (hs1 : ∀ ch ∈ s1, ch ≠ '"') (hs2 : ∀ ch ∈ s2, ch ≠ '"') :
    reFindQuoted stylePat (c10Line c1 s1 c2 s2) = [s1, s2] := by
  unfold reFindQuoted
  rw [qrun_eq_qpass, c10_style_scan c1 s1 c2 s2 hc1 hc2 hs1 hs2]

theorem c10_reSub_style (c1 s1 c2 s2 : List Char)
    (hc1 : ∀ ch ∈ c1, ch ≠ 's') (hc2 : ∀ ch ∈ c2, ch ≠ 's')
    (hs1 : ∀ ch ∈ s1, ch ≠ '"') (hs2 : ∀ ch ∈ s2, ch ≠ '"') :
    reSubQuoted stylePat [] (c10Line c1 s1 c2 s2) = c10Html1 c1 c2 := by
  unfold reSubQuoted
  rw [qrun_eq_qpass, c10_style_scan c1 s1 c2 s2 hc1 hc2 hs1 hs2]
  simp [qflush]

theorem c10_reFind_class (c1 s1 c2 s2 : List Char)
    (hc1 : ∀ ch ∈ c1, ch ≠ '"') (hc2 : ∀ ch ∈ c2, ch ≠ '"')
    (hs1 : ∀ ch ∈ s1, ch ≠ 'c') (hs2 : ∀ ch ∈ s2, ch ≠ 'c') :
    reFindQuoted classPat (c10Line c1 s1 c2 s2) = [c1, c2] := by
  unfold reFindQuoted
  rw [qrun_eq_qpass]
  exact c10_class_scan_finds c1 s1 c2 s2 hc1 hc2 hs1 hs2

theorem c10_reFind_class_html1 (c1 c2 : List Char)
    (hc1 : ∀ ch ∈ c1, ch ≠ '"') (hc2 : ∀ ch ∈ c2, ch ≠ '"') :
    reFindQuoted classPat (c10Html1 c1 c2) = [c1, c2] := by
  unfold reFindQuoted
  rw [qrun_eq_qpass, c10_class_scan_html1 [] c1 c2 hc1 hc2]

theorem c10_reSub_class (N c1 c2 : List Char)
    (hc1 : ∀ ch ∈ c1, ch ≠ '"') (hc2 : ∀ ch ∈ c2, ch ≠ '"') :
    reSubQuoted classPat N (c10Html1 c1 c2) = c10Out N := by
  unfold reSubQuoted c10Out
  rw [qrun_eq_qpass, c10_class_scan_html1 N c1 c2 hc1 hc2]
  simp [qflush]

/-- A style value with no quote characters passes the quote-stripping
prologue unchanged. -/
theorem stripQuotesPy_id (s : List Char)
    (h : ∀ c ∈ s, c ≠ '\'' ∧ c ≠ '"') : stripQuotesPy s = s := by
  have h1 : ¬ (s.contains '\'' = true) :=
    fun hc => ((h '\'' (by simpa using hc)).1 rfl)
  have h2 : ¬ (s.contains '"' = true) :=
    fun hc => ((h '"' (by simpa using hc)).2 rfl)
  unfold stripQuotesPy
  rw [if_neg h1, if_neg h2]

/-- Appending a rule for a different style does not make a failed lookup
succeed. -/
theorem lookupByStyle_append_single (rules : List (List Char × List Char))
    (n s t : List Char) (h : lookupByStyle rules t = none) (hst : s ≠ t) :
    lookupByStyle (rules ++ [(n, s)]) t = none := by
  unfold lookupByStyle at h ⊢
  have h0 : rules.find? (fun p => p.2 == t) = none := by
    cases hf : rules.find? (fun p => p.2 == t) with
    | none => rfl
    | some q => rw [hf] at h; simp at h
  rw [List.find?_append, h0]
  simp [hst]

/-- `add_css_classes` on a style that is not in the table mints a
file-hash class name with the current counter and appends a rule. -/
theorem add_css_classes_none (hash : List Char → List Char)
    (cfg : CssConfig) (ccs : List (List Char)) (st tf : List Char)
    (h : lookupByStyle cfg.css_rules st = none) :
    add_css_classes hash cfg ccs st tf
      = ({ cfg with
            css_rules := cfg.css_rules
              ++ [(mkClassName (hash tf) cfg.counter, st)]
            counter := cfg.counter + 1 },
         ccs ++ [mkClassName (hash tf) cfg.counter]) := by
  unfold add_css_classes
  dsimp only
  rw [h]
  simp only [Option.getD_none]
  rw [if_pos trivial]

/-- The per-match loop of `clean_inline_style_to_css_class` over the two
extracted styles: both lookups miss, so the returned `css_classes` is the
flattened class list followed by the two minted names; the counter is
bumped twice per iteration (once by `add_css_classes` and once more by the
loop body), so the second minted name carries `counter + 2`. -/
theorem c10_loop (hash : List Char → List Char) (this_file s1 s2 : List Char)
    (cfg : CssConfig) (fl : List (List Char)) (hfl : fl ≠ [])
    (hq1 : ∀ c ∈ s1, c ≠ '\'' ∧ c ≠ '"')
    (hq2 : ∀ c ∈ s2, c ≠ '\'' ∧ c ≠ '"')
    (hl1 : lookupByStyle cfg.css_rules s1 = none)
    (hl2 : lookupByStyle cfg.css_rules s2 = none)
    (h12 : s1 ≠ s2) :
    ([s1, s2].foldl (cleanLoopStep hash this_file) (cfg, fl, [])).2.2
      = fl ++ [mkClassName (hash this_file) cfg.counter,
               mkClassName (hash this_file) (cfg.counter + 2)] := by
  rw [List.foldl_cons, List.foldl_cons, List.foldl_nil]
  have hstep1 : cleanLoopStep hash this_file (cfg, fl, []) s1
      = ({ cfg with
            css_rules := cfg.css_rules
              ++ [(mkClassName (hash this_file) cfg.counter, s1)]
            counter := cfg.counter + 2 },
         fl ++ [mkClassName (hash this_file) cfg.counter],
         fl ++ [mkClassName (hash this_file) cfg.counter]) := by
    unfold cleanLoopStep
    dsimp only
    rw [stripQuotesPy_id s1 hq1, if_neg hfl,
        add_css_classes_none hash cfg fl s1 this_file hl1]
    dsimp only
    rw [if_neg hfl]
  rw [hstep1]
  have hl2b : lookupByStyle (cfg.css_rules
      ++ [(mkClassName (hash this_file) cfg.counter, s1)]) s2 = none :=
    lookupByStyle_append_single cfg.css_rules
      (mkClassName (hash this_file) cfg.counter) s1 s2 hl2 h12
  have hfl2 : fl ++ [mkClassName (hash this_file) cfg.counter] ≠ [] := by simp
  have hstep2 := add_css_classes_none hash
      ({ cfg with
          css_rules := cfg.css_rules
            ++ [(mkClassName (hash this_file) cfg.counter, s1)]
          counter := cfg.counter + 2 })
      (fl ++ [mkClassName (hash this_file) cfg.counter]) s2 this_file hl2b
  unfold cleanLoopStep
  dsimp only
  rw [stripQuotesPy_id s2 hq2, if_neg hfl2, hstep2]
  simp


/-- C10: on a line holding two tags, each with a class attribute and a
style attribute (the family `<div class="C1" style="S1"><p class="C2"
style="S2">x</p>` for attribute values over scanner-inert characters),
`clean_inline_style_to_css_class` rewrites BOTH class attributes — also
the second tag's — to the same merged, set-deduplicated class string
(`class="` + the distinct members of both original class lists plus the
two generated names + `"`), and removes BOTH style attributes, including
the attribute of the tag other than the one whose style minted the class. -/
theorem C10_multi_attribute_line (hash : List Char → List Char)
    (cfg : CssConfig) (this_file c1 s1 c2 s2 : List Char)
    (hc1 : ∀ ch ∈ c1, ch ≠ '"' ∧ ch ≠ 's')
    (hc2 : ∀ ch ∈ c2, ch ≠ '"' ∧ ch ≠ 's')
    (hs1 : ∀ ch ∈ s1, ch ≠ '"' ∧ ch ≠ '\'' ∧ ch ≠ 'c')
    (hs2 : ∀ ch ∈ s2, ch ≠ '"' ∧ ch ≠ '\'' ∧ ch ≠ 'c')
    (hne : pySplitWS c1 ++ pySplitWS c2 ≠ [])
    (hl1 : lookupByStyle cfg.css_rules s1 = none)
    (hl2 : lookupByStyle cfg.css_rules s2 = none)
    (h12 : s1 ≠ s2) :
    (clean_inline_style_to_css_class hash cfg (c10Line c1 s1 c2 s2) this_file).2
      = c10Out (mkNewClassStr ((pySplitWS c1 ++ pySplitWS c2)
          ++ [mkClassName (hash this_file) cfg.counter,
              mkClassName (hash this_file) (cfg.counter + 2)])) := by
  have hc1s : ∀ ch ∈ c1, ch ≠ 's' := fun ch h => (hc1 ch h).2
  have hc2s : ∀ ch ∈ c2, ch ≠ 's' := fun ch h => (hc2 ch h).2
  have hc1q : ∀ ch ∈ c1, ch ≠ '"' := fun ch h => (hc1 ch h).1
  have hc2q : ∀ ch ∈ c2, ch ≠ '"' := fun ch h => (hc2 ch h).1
  have hs1q : ∀ ch ∈ s1, ch ≠ '"' := fun ch h => (hs1 ch h).1
  have hs2q : ∀ ch ∈ s2, ch ≠ '"' := fun ch h => (hs2 ch h).1
  have hs1c : ∀ ch ∈ s1, ch ≠ 'c' := fun ch h => (hs1 ch h).2.2
  have hs2c : ∀ ch ∈ s2, ch ≠ 'c' := fun ch h => (hs2 ch h).2.2
  have hq1 : ∀ ch ∈ s1, ch ≠ '\'' ∧ ch ≠ '"' :=
    fun ch h => ⟨(hs1 ch h).2.1, (hs1 ch h).1⟩
  have hq2 : ∀ ch ∈ s2, ch ≠ '\'' ∧ ch ≠ '"' :=
    fun ch h => ⟨(hs2 ch h).2.1, (hs2 ch h).1⟩
  unfold clean_inline_style_to_css_class
  dsimp only
  rw [c10_reFind_style c1 s1 c2 s2 hc1s hc2s hs1q hs2q,
      c10_reFind_class c1 s1 c2 s2 hc1q hc2q hs1c hs2c,
      c10_reSub_style c1 s1 c2 s2 hc1s hc2s hs1q hs2q]
  simp only [List.map_cons, List.map_nil, List.flatten_cons, List.flatten_nil,
    List.append_nil]
  rw [c10_loop hash this_file s1 s2 cfg (pySplitWS c1 ++ pySplitWS c2)
      hne hq1 hq2 hl1 hl2 h12]
  rw [if_pos (by simp)]
  unfold add_or_update_class
  rw [c10_reFind_class_html1 c1 c2 hc1q hc2q]
  rw [if_pos (by simp)]
  rw [c10_reSub_class _ c1 c2 hc1q hc2q]

/-- Witness: a concrete two-tag line with class lists `b1` and `b2` and
styles `margin: 0;` / `padding: 0;` against a fresh config. -/
theorem C10_multi_attribute_line_witness :
    (clean_inline_style_to_css_class shake256Hex5 ⟨[], 0, []⟩
        (c10Line ("b1".data) ("margin: 0;".data) ("b2".data)
          ("padding: 0;".data)) ("a.html".data)).2
      = c10Out (mkNewClassStr ((pySplitWS ("b1".data) ++ pySplitWS ("b2".data))
          ++ [mkClassName (shake256Hex5 ("a.html".data)) 0,
              mkClassName (shake256Hex5 ("a.html".data)) 2])) :=
  C10_multi_attribute_line shake256Hex5 ⟨[], 0, []⟩ ("a.html".data)
    ("b1".data) ("margin: 0;".data) ("b2".data) ("padding: 0;".data)
    (by decide) (by decide) (by decide) (by decide) (by decide) (by decide)
    (by decide) (by decide)

end DjLint
